import Mathlib

/-! # runawk (lite): argument rewriting and child supervision

A shallow embedding of `src/runawk.c`.

* C strings are lists of characters (`CStr`); the terminating NUL is implicit.
* `array_t` is a list of nullable strings; `array_push` appends at the end.
* The globals of the program and the locals of `main` that survive between
  phases are the fields of `State`; what the program does to the outside (the
  temporary file, signals sent, the forked child, standard output) is `World`.
* Everything the operating system decides is an input, collected in `Env`:
  the results of `getcwd`, `mkstemp`, `write`, `close`, `strdup` (inside
  `xstrdup`), `fork`, `waitpid`, and the signals delivered to the process.
* `exit` is the `error` side of `Except Outcome`; `die` computes the `Outcome`.
* Strings have value semantics, with one exception: in shebang mode `main`
  keeps the pointer `script` into `shebang.array` and reads it after
  `array_free (&shebang.array)`; what it reads then is the input `afterFree`.

Assumptions of the model: `realloc` and the unchecked `strdup` inside
`array_pushdup` succeed; `unlink` of the file this process created succeeds;
a failing `mkstemp` leaves `temp_fn` as it was; diagnostics written to
standard error are not recorded; the process is followed up to `exit`, in
the process that was started (the forked child is recorded by what it passes
to `execvp`).

The option table of the specification is formalised separately (`Spec`), and
the option loop of the source is proved to compute what the table says
(`parseOptions_refines`, `parseArgs_eq`).
-/

namespace Runawk

/-- A C string: its characters up to, not including, the terminating NUL. -/
abbrev CStr := List Char

/-- Compile-time configuration: the macros `AWK` and `AWK2`. -/
structure Config where
  AWK : CStr
  AWK2 : Option CStr
deriving DecidableEq, Repr

/-- The configuration the source compiles to when `AWK` is not predefined. -/
def defaultConfig : Config := ⟨"/usr/local/bin/gawk".toList, none⟩

/-- What `usage ()` and `version ()` put on standard output. -/
inductive Printed where
  | usage
  | version
deriving DecidableEq, Repr

/-- The part of the outside world the process acts on. -/
structure World where
  /-- the file created by `mkstemp`, while it exists: its path and content -/
  tempFile : Option (CStr × CStr) := none
  /-- how many files `mkstemp` has created -/
  created : Nat := 0
  /-- the `kill (pid, sig)` calls made, oldest first -/
  killed : List (Int × Nat) := []
  /-- the forked child: the file and argument vector it passes to `execvp` -/
  child : Option (CStr × List (Option CStr)) := none
  /-- calls of `usage ()` and `version ()`, oldest first -/
  stdout : List Printed := []
deriving DecidableEq, Repr

/-- The globals of `runawk.c` and the local `script` of `main`. -/
structure State where
  temp_fn : CStr := "/tmp/runawk.XXXXXX".toList
  temp_fn_created : Bool := false
  awk_pid : Int := -1
  killing_sig : Nat := 0
  add_stdin : Bool := false
  new_argv : List (Option CStr) := []
  files : Bool := false
  execing : Bool := false
  script : Option CStr := none
  world : World := {}
deriving DecidableEq, Repr

/-- How the process ended: the status passed to `exit` and the world left behind. -/
structure Outcome where
  status : Nat
  world : World
deriving DecidableEq, Repr

/-- What the `<sys/wait.h>` macros report about the value `waitpid` stored. -/
structure ChildStatus where
  WIFSIGNALED : Bool
  WTERMSIG : Nat
  WIFEXITED : Bool
  WEXITSTATUS : Nat
deriving DecidableEq, Repr

/-- The macros applied to `child_status = 0`, the value `main` initialises it
to: POSIX stores 0 exactly for a child that exited with status 0. -/
def statusZero : ChildStatus := ⟨false, 0, true, 0⟩

/-- The decisions of the operating system during one run. -/
structure Env where
  /-- `getcwd` returned non-null -/
  getcwd : Bool
  /-- `mkstemp`: the unique path it created and wrote into `temp_fn`, or failure -/
  mkstemp : Option CStr
  /-- `write`: the number of bytes written, or failure (-1) -/
  write : Option Nat
  /-- `close` returned 0 -/
  close : Bool
  /-- `strdup` inside `xstrdup` returned non-null -/
  xstrdup : Bool
  /-- `fork` in the parent: the pid of the child, or failure (-1) -/
  fork : Option Nat
  /-- `waitpid`: the status it stored, or `none` when it returned -1 and
  stored nothing (for instance `EINTR`) -/
  waitpid : Option ChildStatus
  /-- what the bytes of a string of `shebang.array` read as once
  `array_free (&shebang.array)` has released it (C leaves this undefined) -/
  afterFree : CStr → CStr
  /-- handled signals delivered after `set_sig_handler` and before `fork` returns -/
  sigsBeforeFork : List Nat
  /-- handled signals delivered after `fork` and before the parent tests `killing_sig` -/
  sigsWhileWaiting : List Nat
  /-- handled signals delivered after that test and before `die` tests `killing_sig` -/
  sigsBeforeDie : List Nat

def SIGHUP : Nat := 1
def SIGINT : Nat := 2
def SIGQUIT : Nat := 3
def SIGPIPE : Nat := 13
def SIGTERM : Nat := 15

/-- The table `sigs` of `set_sig_handler`. -/
def sigs : List Nat := [SIGINT, SIGQUIT, SIGTERM, SIGHUP, SIGPIPE]

/-! ## `array_t` -/

def array_push (array : List (Option CStr)) (item : Option CStr) : List (Option CStr) :=
  array ++ [item]

def array_pushdup (array : List (Option CStr)) (item : Option CStr) : List (Option CStr) :=
  array_push array item

/-- Apply `array_pushdup (&new_argv, item)`. -/
def pushdup (st : State) (item : Option CStr) : State :=
  { st with new_argv := array_pushdup st.new_argv item }

/-! ## `die`, `handler` -/

/-- The effect of `unlink (path)` on the world. -/
def unlink (path : CStr) (w : World) : World :=
  match w.tempFile with
  | some (p, c) => if p = path then { w with tempFile := none } else { w with tempFile := some (p, c) }
  | none => w

def die (status : Nat) (st : State) : Outcome :=
  let w := if st.temp_fn_created then unlink st.temp_fn st.world else st.world
  if st.killing_sig ≠ 0 then
    ⟨128 + st.killing_sig, w⟩
  else
    ⟨status, w⟩

def handler (sig : Nat) (st : State) : State :=
  let st := { st with killing_sig := sig }
  if st.awk_pid ≠ -1 then
    { st with world := { st.world with killed := st.world.killed ++ [(st.awk_pid, sig)] } }
  else
    st

/-- Run `handler` for each signal of a list, in order of delivery. -/
def deliver (l : List Nat) (st : State) : State :=
  l.foldl (fun s sig => handler sig s) st

def usage (st : State) : State :=
  { st with world := { st.world with stdout := st.world.stdout ++ [Printed.usage] } }

def version (st : State) : State :=
  { st with world := { st.world with stdout := st.world.stdout ++ [Printed.version] } }

/-! ## `add_file`, `add_buffer` -/

def add_file (name : CStr) (execing : Bool) (st : State) : State :=
  let st := pushdup st (some (if execing then "--exec".toList else "-f".toList))
  let st := pushdup st (some name)
  { st with files := true }

def add_buffer (env : Env) (buffer : CStr) (len : Nat) (st : State) : Except Outcome State :=
  if st.files = false then
    let st := pushdup st (some "--".toList)
    let st := pushdup st (some buffer)
    .ok st
  else
    -- fd = mkstemp (temp_fn)
    let st := match env.mkstemp with
      | some path =>
        { st with temp_fn := path,
                  world := { st.world with tempFile := some (path, []),
                                           created := st.world.created + 1 } }
      | none => st
    let st := { st with temp_fn_created := true }
    if env.mkstemp = none then
      .error (die 40 st)
    else
      -- write (fd, buffer, len)
      let st := match env.write with
        | some n =>
          { st with world := { st.world with
              tempFile := st.world.tempFile.map (fun f => (f.1, buffer.take (min n len))) } }
        | none => st
      if env.write ≠ some len then
        .error (die 40 st)
      else if env.close = false then
        .error (die 40 st)
      else
        let st := pushdup st (some "-f".toList)
        let st := pushdup st (some st.temp_fn)
        .ok { st with files := true }

/-! ## `main`: the run-together shebang line -/

/-- The splitting loop of `main`: `acc` is `shebang.array`, `token` the
characters between the pointers `token` and `p`, the list argument what `p`
still has to read. -/
def shebangSplit (acc : List CStr) (token : CStr) : CStr → List CStr
  | [] => if token ≠ [] then acc ++ [token] else acc
  | c :: cs =>
    if c = ' ' then shebangSplit (acc ++ [token]) [] cs
    else shebangSplit acc (token ++ [c]) cs

/-- The variables the shebang block of `main` leaves behind. -/
structure Shebang where
  /-- `shebang.argc` -/
  argc : Nat
  /-- `shebang.argv` (meaningful when `argc` is not 0) -/
  argv : List CStr
  /-- `argv` of `main` after the block, `argc` being its length -/
  args : List CStr
deriving DecidableEq, Repr

/-- The block `if (argc >= 2 && argv [0][0] == '-' && argv[1][0] != '-' &&
strchr(argv[0], ' '))` of `main`. -/
def shebangExpand : List CStr → Shebang
  | a0 :: a1 :: more =>
    if a0.head? = some '-' ∧ a1.head? ≠ some '-' ∧ ' ' ∈ a0 then
      { argc := (a1 :: more).length, argv := a1 :: more, args := shebangSplit [] [] a0 }
    else
      { argc := 0, argv := [], args := a0 :: a1 :: more }
  | args => { argc := 0, argv := [], args := args }

/-! ## `main`: the option loop -/

/-- The loop `for (; argc && argv [0][0] == '-'; --argc, ++argv)` of `main`.
The result is the state and the `argv` left when the loop is left. -/
def parseOptions (shebang_argc : Nat) : List CStr → State → Except Outcome (State × List CStr)
  | [], st => .ok (st, [])
  | a :: rest, st =>
    if a.head? ≠ some '-' then .ok (st, a :: rest)
    else if a = "--help".toList then .error (die 0 (usage st))
    else if a = "--version".toList then .error (die 0 (version st))
    else if a = "--stdin".toList then parseOptions shebang_argc rest { st with add_stdin := true }
    else if a = "-F".toList then
      match rest with
      | [] => .error (die 39 st)
      | x :: rest1 =>
        parseOptions shebang_argc rest1 (pushdup (pushdup st (some "-F".toList)) (some x))
    else if a.take 2 = "-F".toList then
      parseOptions shebang_argc rest (pushdup (pushdup st (some "-F".toList)) (some (a.drop 2)))
    else if a = "-v".toList ∨ a = "--assign".toList then
      match rest with
      | [] => .error (die 39 st)
      | x :: rest1 =>
        parseOptions shebang_argc rest1 (pushdup (pushdup st (some "-v".toList)) (some x))
    else if a.take 2 = "-v".toList then
      parseOptions shebang_argc rest (pushdup (pushdup st (some "-v".toList)) (some (a.drop 2)))
    else if a = "-f".toList ∨ a = "--file".toList then
      match rest with
      | [] => .error (die 39 st)
      | x :: rest1 => parseOptions shebang_argc rest1 (add_file x false st)
    else if a.take 2 = "-f".toList then
      parseOptions shebang_argc rest (add_file (a.drop 2) false st)
    else if a = "-e".toList ∨ a = "--source".toList then
      match rest with
      | [] => .error (die 39 st)
      | x :: rest1 => parseOptions shebang_argc rest1 { st with script := some x }
    else if a.take 2 = "-e".toList then
      parseOptions shebang_argc rest { st with script := some (a.drop 2) }
    else if a = "--exec".toList then
      if shebang_argc ≠ 0 then
        if st.script ≠ none then .error (die 39 st)
        else .ok ({ st with execing := true }, rest)
      else if rest = [] then .error (die 39 st)
      else .ok ({ st with execing := true }, rest)
    else if a = "--".toList then .ok (st, rest)
    else if a.take 2 = "--".toList then
      parseOptions shebang_argc rest (pushdup st (some a))
    else if 1 < a.length then .error (die 1 st)
    else .ok (st, a :: rest)

/-! ## `main` -/

/-- Lines 257–261 of `main`: slot 0 is reserved and, when configured, `AWK2`
is pushed. -/
def enterOptions (cfg : Config) (st : State) : State :=
  let st := pushdup st none
  match cfg.AWK2 with
  | some awk2 => pushdup st (some awk2)
  | none => st

/-- Lines 251–441 of `main`: `getcwd`, the reserved slot, `AWK2`, the shebang
block, the option loop and the check for leftover shebang arguments. The
result is the state and the `argv` that supplies the program file. -/
def parseArgs (cfg : Config) (env : Env) (args : List CStr) (st : State) :
    Except Outcome (State × List CStr) :=
  if env.getcwd = false then .error (die 32 st)
  else
    let st := enterOptions cfg st
    let shebang := shebangExpand args
    match parseOptions shebang.argc shebang.args st with
    | .error o => .error o
    | .ok (st, argv) =>
      if shebang.argc ≠ 0 then
        if argv ≠ [] then .error (die 1 st)
        else
          -- array_free (&shebang.array): `script`, when set, points into it
          let st := { st with script := st.script.map env.afterFree }
          .ok (st, shebang.argv)
      else .ok (st, argv)

/-- Lines 465–478 of `main`, once `xstrdup` has succeeded: slot 0, the
positional terminator, the arguments, `/dev/stdin` and the terminating `NULL`. -/
def completeArgv (progname : CStr) (argv : List CStr) (st : State) : State :=
  let st := { st with new_argv := st.new_argv.set 0 (some progname) }
  let st := if st.files ∧ ¬ st.execing then pushdup st (some "--".toList) else st
  let st := argv.foldl (fun s a => pushdup s (some a)) st
  let st := if st.add_stdin then pushdup st (some "/dev/stdin".toList) else st
  pushdup st none

/-- Lines 443–478 of `main`: the program source, then the rest of the
argument vector. -/
def finishArgv (cfg : Config) (env : Env) (argv : List CStr) (st : State) :
    Except Outcome State :=
  let progname := cfg.AWK
  let r : Except Outcome (State × CStr × List CStr) :=
    match st.script with
    | some script =>
      match add_buffer env script script.length st with
      | .error o => .error o
      | .ok st => .ok (st, progname, argv)
    | none =>
      match argv with
      | [] => .error (die 30 (usage st))
      | file :: argv1 => .ok (add_file file st.execing st, file, argv1)
  match r with
  | .error o => .error o
  | .ok (st, progname, argv) =>
    if env.xstrdup = false then .error (die 33 st)
    else .ok (completeArgv progname argv st)

/-- Everything `main` does before `fork`, after the test `argc == 0`. -/
def buildArgv (cfg : Config) (env : Env) (args : List CStr) (st : State) : Except Outcome State :=
  match parseArgs cfg env args st with
  | .error o => .error o
  | .ok (st, argv) => finishArgv cfg env argv st

/-- Lines 480–509 of `main`, in the process that called `fork`. -/
def supervise (cfg : Config) (env : Env) (st : State) : Outcome :=
  match env.fork with
  | none => die 42 { st with awk_pid := -1 }
  | some pid =>
    let st := { st with awk_pid := (pid : Int),
                        world := { st.world with child := some (cfg.AWK, st.new_argv) } }
    -- waitpid (-1, &child_status, 0)
    let st := deliver env.sigsWhileWaiting st
    let child_status := env.waitpid.getD statusZero
    let st := { st with new_argv := [] }
    if st.killing_sig ≠ 0 then
      die 0 (deliver env.sigsBeforeDie st)
    else if child_status.WIFSIGNALED then
      die (128 + child_status.WTERMSIG) (deliver env.sigsBeforeDie st)
    else if child_status.WIFEXITED then
      die child_status.WEXITSTATUS (deliver env.sigsBeforeDie st)
    else
      die 200 (deliver env.sigsBeforeDie st)

/-- The function `main`, called with the arguments after the program's own
name, in the process that was started. The signals of `sigsBeforeFork` are
handled at the start: until `fork` returns `awk_pid` is -1, so `handler` only
sets `killing_sig`, which is read by `die` and after `waitpid` only, and the
moment of delivery within that phase cannot be observed. -/
def main (cfg : Config) (env : Env) (args : List CStr) : Outcome :=
  let st : State := {}
  match args with
  | [] => ⟨30, (usage st).world⟩
  | _ =>
    match buildArgv cfg env args (deliver env.sigsBeforeFork st) with
    | .error o => o
    | .ok st => supervise cfg env st

/-! ## The option table of the specification -/

namespace Spec

/-- A parsed option: a row of the option table after which parsing goes on. -/
inductive Opt where
  /-- `--stdin` -/
  | stdin
  /-- `-F sep`, `-Fsep` -/
  | fieldSep (sep : CStr)
  /-- `-v x`, `--assign x`, `-vx` -/
  | assign (x : CStr)
  /-- `-f x`, `--file x`, `-fx` -/
  | file (x : CStr)
  /-- `-e s`, `--source s`, `-es` -/
  | source (s : CStr)
  /-- any other token starting with `--` -/
  | passThrough (tok : CStr)
deriving DecidableEq, Repr

/-- The tokens the option table appends to the queue for a parsed option. -/
def Opt.translation : Opt → List CStr
  | .stdin => []
  | .fieldSep sep => ["-F".toList, sep]
  | .assign x => ["-v".toList, x]
  | .file x => ["-f".toList, x]
  | .source _ => []
  | .passThrough tok => [tok]

def Opt.isFile : Opt → Bool
  | .file _ => true
  | _ => false

def Opt.source? : Opt → Option CStr
  | .source s => some s
  | _ => none

/-- The translations of a list of parsed options, concatenated in input order. -/
def translate (opts : List Opt) : List CStr :=
  opts.flatMap Opt.translation

/-- Whether a library file was registered. -/
def hasFile (opts : List Opt) : Bool :=
  opts.any Opt.isFile

/-- Whether `--stdin` was parsed. -/
def hasStdin (opts : List Opt) : Bool :=
  decide (Opt.stdin ∈ opts)

/-- The inline script: the text of the last `-e`/`--source`, if any. -/
def script (opts : List Opt) : Option CStr :=
  (opts.filterMap Opt.source?).getLast?

/-- The fatal usage errors of option parsing. -/
inductive Fatal where
  | help
  | version
  | missingArgument
  | unknownOption
  | execConflict
  | shebangLeftover
deriving DecidableEq, Repr

/-- The exit status the source requests for a fatal usage error. -/
def Fatal.status : Fatal → Nat
  | .help => 0
  | .version => 0
  | .missingArgument => 39
  | .unknownOption => 1
  | .execConflict => 39
  | .shebangLeftover => 1

/-- The kind of a token met in option position. -/
inductive Kind where
  /-- does not start with `-`: the first positional argument -/
  | positional
  | help
  | version
  /-- an option complete in one token -/
  | option (o : Opt)
  /-- an option that takes the next token as its argument -/
  | separated (mk : CStr → Opt)
  /-- `--exec` -/
  | exec
  /-- `--` -/
  | terminator
  /-- an unrecognized short option -/
  | unknownShort
  /-- a bare `-` -/
  | bareDash

/-- The option table, read top to bottom. -/
def classify (tok : CStr) : Kind :=
  if tok.head? ≠ some '-' then .positional
  else if tok = "--help".toList then .help
  else if tok = "--version".toList then .version
  else if tok = "--stdin".toList then .option .stdin
  else if tok = "-F".toList then .separated .fieldSep
  else if tok.take 2 = "-F".toList then .option (.fieldSep (tok.drop 2))
  else if tok = "-v".toList ∨ tok = "--assign".toList then .separated .assign
  else if tok.take 2 = "-v".toList then .option (.assign (tok.drop 2))
  else if tok = "-f".toList ∨ tok = "--file".toList then .separated .file
  else if tok.take 2 = "-f".toList then .option (.file (tok.drop 2))
  else if tok = "-e".toList ∨ tok = "--source".toList then .separated .source
  else if tok.take 2 = "-e".toList then .option (.source (tok.drop 2))
  else if tok = "--exec".toList then .exec
  else if tok = "--".toList then .terminator
  else if tok.take 2 = "--".toList then .option (.passThrough tok)
  else if tok = "-".toList then .bareDash
  else .unknownShort

/-- The result of option parsing: the parsed options in input order, whether
direct-execution mode was entered, and the arguments left. -/
structure Parsed where
  opts : List Opt
  exec : Bool
  rest : List CStr
deriving DecidableEq, Repr

def Parsed.cons (o : Opt) (r : Parsed) : Parsed :=
  { r with opts := o :: r.opts }

/-- Option parsing by the table: `shebang` tells whether a shebang
substitution is active, `scriptSet` whether an inline script was set by an
earlier option. -/
def scan (shebang : Bool) : Bool → List CStr → Except Fatal Parsed
  | _, [] => .ok ⟨[], false, []⟩
  | scriptSet, tok :: rest =>
    match classify tok with
    | .positional => .ok ⟨[], false, tok :: rest⟩
    | .bareDash => .ok ⟨[], false, tok :: rest⟩
    | .help => .error .help
    | .version => .error .version
    | .unknownShort => .error .unknownOption
    | .terminator => .ok ⟨[], false, rest⟩
    | .exec =>
      if shebang then
        if scriptSet then .error .execConflict else .ok ⟨[], true, rest⟩
      else if rest = [] then .error .missingArgument
      else .ok ⟨[], true, rest⟩
    | .option o =>
      (scan shebang (scriptSet || (o.source?).isSome) rest).map (Parsed.cons o)
    | .separated mk =>
      match rest with
      | [] => .error .missingArgument
      | x :: rest1 =>
        (scan shebang (scriptSet || ((mk x).source?).isSome) rest1).map (Parsed.cons (mk x))

/-- Shebang expansion followed by option parsing: in shebang mode every
shebang-derived token must be consumed, and the arguments that followed the
shebang argument are the ones left. -/
def parse (args : List CStr) : Except Fatal Parsed :=
  let sb := shebangExpand args
  match scan (decide (sb.argc ≠ 0)) false sb.args with
  | .error f => .error f
  | .ok r =>
    if sb.argc ≠ 0 then
      if r.rest ≠ [] then .error .shebangLeftover else .ok { r with rest := sb.argv }
    else .ok r

end Spec

/-! ## The state option parsing leaves, in terms of the parsed options -/

/-- The state after the option loop has processed the parsed options `r`
starting from `st`. -/
def afterOptions (r : Spec.Parsed) (st : State) : State :=
  { st with
    new_argv := st.new_argv ++ (Spec.translate r.opts).map some
    add_stdin := st.add_stdin || Spec.hasStdin r.opts
    files := st.files || Spec.hasFile r.opts
    script := match Spec.script r.opts with
      | some s => some s
      | none => st.script
    execing := st.execing || r.exec }

/-- How the source exits on a fatal usage error met in state `st`. -/
def fatal (f : Spec.Fatal) (st : State) : Outcome :=
  match f with
  | .help => die 0 (usage st)
  | .version => die 0 (version st)
  | f => die f.status st

/-- The state `parseArgs` leaves when the arguments parse to `r`: in shebang
mode `script` has been released by `array_free (&shebang.array)`. -/
def afterParse (cfg : Config) (env : Env) (args : List CStr) (r : Spec.Parsed) (st : State) :
    State :=
  let st1 := afterOptions r (enterOptions cfg st)
  if (shebangExpand args).argc ≠ 0 then { st1 with script := st1.script.map env.afterFree }
  else st1

/-- What `main` reads through the pointer `script` after the option loop,
when the option that set it carried the text `s`: in shebang mode the string
has been released by then. -/
def scriptRead (env : Env) (args : List CStr) (s : CStr) : CStr :=
  if (shebangExpand args).argc ≠ 0 then env.afterFree s else s

/-- The finished argument vector `new_argv.contents`, as it is when `main`
reaches `fork`; `none` when the process exits before. -/
def finishedArgv (cfg : Config) (env : Env) (args : List CStr) : Option (List (Option CStr)) :=
  match buildArgv cfg env args (deliver env.sigsBeforeFork {}) with
  | .ok st => some st.new_argv
  | .error _ => none

/-- The cleanup invariant: a temporary file of this process exists only at
the path held in `temp_fn`, with `temp_fn_created` set. -/
def TempOwned (st : State) : Prop :=
  st.world.tempFile = none ∨
    (st.temp_fn_created = true ∧ ∃ c, st.world.tempFile = some (st.temp_fn, c))

/-! ## Option position -/

namespace Spec

/-- The options a list of tokens consists of, when every token of the list is
consumed by an option row of the table (an option complete in one token, or an
option together with its argument); `none` otherwise. The token that follows
such a list is in option position. -/
def optionPrefix : List CStr → Option (List Opt)
  | [] => some []
  | tok :: rest =>
    match classify tok with
    | .option o => (optionPrefix rest).map (fun os => o :: os)
    | .separated mk =>
      match rest with
      | [] => none
      | x :: rest1 => (optionPrefix rest1).map (fun os => mk x :: os)
    | _ => none

/-- The parsed option for the letter `X` among `F`, `v`, `f` with the value `x`. -/
def valueOption (X : Char) (x : CStr) : Opt :=
  if X = 'F' then .fieldSep x else if X = 'v' then .assign x else .file x

end Spec

/-- The option tokens that take the next token as their argument. -/
def needsArgument : List CStr :=
  ["-F".toList, "-v".toList, "--assign".toList, "-f".toList, "--file".toList, "-e".toList,
    "--source".toList]

/-! ## Sample inputs -/

/-- An environment in which every system call succeeds, `write` writes `len`
bytes, the child exits with status 0, no signal is delivered and released
strings read back unchanged. -/
def quietEnv (len : Nat) : Env :=
  { getcwd := true
    mkstemp := some "/tmp/runawk.Ab3dE9".toList
    write := some len
    close := true
    xstrdup := true
    fork := some 4242
    waitpid := some ⟨false, 0, true, 0⟩
    afterFree := id
    sigsBeforeFork := []
    sigsWhileWaiting := []
    sigsBeforeDie := [] }

/-! ## Theorems -/

theorem parseOptions_cons (n : Nat) (a : CStr) (rest : List CStr) (st : State) :
    parseOptions n (a :: rest) st =
    if a.head? ≠ some '-' then .ok (st, a :: rest)
    else if a = "--help".toList then .error (die 0 (usage st))
    else if a = "--version".toList then .error (die 0 (version st))
    else if a = "--stdin".toList then parseOptions n rest { st with add_stdin := true }
    else if a = "-F".toList then
      match rest with
      | [] => .error (die 39 st)
      | x :: rest1 =>
        parseOptions n rest1 (pushdup (pushdup st (some "-F".toList)) (some x))
    else if a.take 2 = "-F".toList then
      parseOptions n rest (pushdup (pushdup st (some "-F".toList)) (some (a.drop 2)))
    else if a = "-v".toList ∨ a = "--assign".toList then
      match rest with
      | [] => .error (die 39 st)
      | x :: rest1 =>
        parseOptions n rest1 (pushdup (pushdup st (some "-v".toList)) (some x))
    else if a.take 2 = "-v".toList then
      parseOptions n rest (pushdup (pushdup st (some "-v".toList)) (some (a.drop 2)))
    else if a = "-f".toList ∨ a = "--file".toList then
      match rest with
      | [] => .error (die 39 st)
      | x :: rest1 => parseOptions n rest1 (add_file x false st)
    else if a.take 2 = "-f".toList then
      parseOptions n rest (add_file (a.drop 2) false st)
    else if a = "-e".toList ∨ a = "--source".toList then
      match rest with
      | [] => .error (die 39 st)
      | x :: rest1 => parseOptions n rest1 { st with script := some x }
    else if a.take 2 = "-e".toList then
      parseOptions n rest { st with script := some (a.drop 2) }
    else if a = "--exec".toList then
      if n ≠ 0 then
        if st.script ≠ none then .error (die 39 st)
        else .ok ({ st with execing := true }, rest)
      else if rest = [] then .error (die 39 st)
      else .ok ({ st with execing := true }, rest)
    else if a = "--".toList then .ok (st, rest)
    else if a.take 2 = "--".toList then
      parseOptions n rest (pushdup st (some a))
    else if 1 < a.length then .error (die 1 st)
    else .ok (st, a :: rest) := by
  cases rest <;> rfl

theorem die_congr (s : Nat) (st st1 : State) (h1 : st1.temp_fn = st.temp_fn)
    (h2 : st1.temp_fn_created = st.temp_fn_created) (h3 : st1.killing_sig = st.killing_sig)
    (h4 : st1.world = st.world) : die s st1 = die s st := by
  simp [die, h1, h2, h3, h4]

@[simp] theorem afterOptions_nil (st : State) (rest : List CStr) :
    afterOptions ⟨[], false, rest⟩ st = st := by
  simp [afterOptions, Spec.translate, Spec.hasStdin, Spec.hasFile, Spec.script]

theorem fatal_congr (f : Spec.Fatal) (st st1 : State) (h1 : st1.temp_fn = st.temp_fn)
    (h2 : st1.temp_fn_created = st.temp_fn_created) (h3 : st1.killing_sig = st.killing_sig)
    (h4 : st1.world = st.world) : fatal f st1 = fatal f st := by
  cases f <;> simp [fatal, die, usage, version, h1, h2, h3, h4]

theorem fatal_afterOptions (f : Spec.Fatal) (r : Spec.Parsed) (st : State) :
    fatal f (afterOptions r st) = fatal f st :=
  fatal_congr f st _ rfl rfl rfl rfl

theorem script_cons (o : Spec.Opt) (opts : List Spec.Opt) :
    Spec.script (o :: opts) =
      match Spec.script opts with
      | some s => some s
      | none => o.source? := by
  unfold Spec.script
  cases h : o.source? with
  | none =>
    rw [List.filterMap_cons, h]
    cases (List.filterMap Spec.Opt.source? opts).getLast? <;> rfl
  | some s =>
    rw [List.filterMap_cons, h]
    cases h2 : List.filterMap Spec.Opt.source? opts with
    | nil => rfl
    | cons y ys =>
      rw [List.getLast?_cons_cons]
      have : (y :: ys).getLast? = some ((y :: ys).getLast (by simp)) :=
        List.getLast?_eq_getLast _ _
      rw [this]

theorem script_single (o : Spec.Opt) : Spec.script [o] = o.source? := by
  cases h : o.source? <;> simp [Spec.script, h]

theorem hasStdin_cons (o : Spec.Opt) (opts : List Spec.Opt) :
    Spec.hasStdin (o :: opts) = (Spec.hasStdin [o] || Spec.hasStdin opts) := by
  unfold Spec.hasStdin
  by_cases h1 : Spec.Opt.stdin = o <;> by_cases h2 : Spec.Opt.stdin ∈ opts <;>
    simp [h1, h2]

theorem afterOptions_cons (o : Spec.Opt) (r : Spec.Parsed) (st : State) :
    afterOptions r (afterOptions ⟨[o], false, []⟩ st) = afterOptions (Spec.Parsed.cons o r) st := by
  cases st
  simp only [afterOptions, Spec.Parsed.cons, script_cons o r.opts, script_single,
    hasStdin_cons o r.opts, State.mk.injEq, true_and, and_true]
  refine ⟨?_, ?_, ?_, ?_, ?_⟩
  · simp [Bool.or_assoc]
  · simp [Spec.translate]
  · simp [Spec.hasFile, Bool.or_assoc]
  · simp
  · cases Spec.script r.opts <;> cases o.source? <;> rfl

theorem advance (o : Spec.Opt) (st st1 : State)
    (h : st1 = afterOptions ⟨[o], false, []⟩ st) (x : Except Spec.Fatal Spec.Parsed) :
    (match x with
      | .error f => (Except.error (fatal f st1) : Except Outcome (State × List CStr))
      | .ok r => .ok (afterOptions r st1, r.rest)) =
    (match Except.map (Spec.Parsed.cons o) x with
      | .error f => .error (fatal f st)
      | .ok r => .ok (afterOptions r st, r.rest)) := by
  subst h
  cases x with
  | error f => simp [Except.map, fatal_afterOptions]
  | ok r => simp [Except.map, afterOptions_cons, Spec.Parsed.cons]

theorem script_isSome_step (o : Spec.Opt) (st : State) :
    (afterOptions ⟨[o], false, []⟩ st).script.isSome = (st.script.isSome || o.source?.isSome) := by
  cases o <;> cases h : st.script <;> simp [afterOptions, Spec.script, Spec.Opt.source?, h]

theorem step_stdin (st : State) :
    { st with add_stdin := true } = afterOptions ⟨[Spec.Opt.stdin], false, []⟩ st := by
  cases st
  simp [afterOptions, Spec.translate, Spec.hasStdin, Spec.hasFile, Spec.script,
    Spec.Opt.translation, Spec.Opt.isFile, Spec.Opt.source?]

theorem step_fieldSep (x : CStr) (st : State) :
    pushdup (pushdup st (some "-F".toList)) (some x) =
      afterOptions ⟨[Spec.Opt.fieldSep x], false, []⟩ st := by
  cases st
  simp [afterOptions, Spec.translate, Spec.hasStdin, Spec.hasFile, Spec.script,
    Spec.Opt.translation, Spec.Opt.isFile, Spec.Opt.source?, pushdup, array_pushdup, array_push]

theorem step_assign (x : CStr) (st : State) :
    pushdup (pushdup st (some "-v".toList)) (some x) =
      afterOptions ⟨[Spec.Opt.assign x], false, []⟩ st := by
  cases st
  simp [afterOptions, Spec.translate, Spec.hasStdin, Spec.hasFile, Spec.script,
    Spec.Opt.translation, Spec.Opt.isFile, Spec.Opt.source?, pushdup, array_pushdup, array_push]

theorem step_file (x : CStr) (st : State) :
    add_file x false st = afterOptions ⟨[Spec.Opt.file x], false, []⟩ st := by
  cases st
  simp [afterOptions, Spec.translate, Spec.hasStdin, Spec.hasFile, Spec.script, add_file,
    Spec.Opt.translation, Spec.Opt.isFile, Spec.Opt.source?, pushdup, array_pushdup, array_push]

theorem step_source (x : CStr) (st : State) :
    { st with script := some x } = afterOptions ⟨[Spec.Opt.source x], false, []⟩ st := by
  cases st
  simp [afterOptions, Spec.translate, Spec.hasStdin, Spec.hasFile, Spec.script,
    Spec.Opt.translation, Spec.Opt.isFile, Spec.Opt.source?]

theorem step_passThrough (a : CStr) (st : State) :
    pushdup st (some a) = afterOptions ⟨[Spec.Opt.passThrough a], false, []⟩ st := by
  cases st
  simp [afterOptions, Spec.translate, Spec.hasStdin, Spec.hasFile, Spec.script,
    Spec.Opt.translation, Spec.Opt.isFile, Spec.Opt.source?, pushdup, array_pushdup, array_push]

theorem step_exec (st : State) (rest : List CStr) :
    { st with execing := true } = afterOptions ⟨[], true, rest⟩ st := by
  cases st
  simp [afterOptions, Spec.translate, Spec.hasStdin, Spec.hasFile, Spec.script]

theorem step_option (n k : Nat)
    (ih : ∀ (argv : List CStr) (st : State), argv.length ≤ k →
      parseOptions n argv st =
        match Spec.scan (decide (n ≠ 0)) st.script.isSome argv with
        | .error f => .error (fatal f st)
        | .ok r => .ok (afterOptions r st, r.rest))
    (o : Spec.Opt) (st st1 : State) (rest : List CStr) (hrest : rest.length ≤ k)
    (e : st1 = afterOptions ⟨[o], false, []⟩ st) :
    parseOptions n rest st1 =
      match Except.map (Spec.Parsed.cons o)
        (Spec.scan (decide (n ≠ 0)) (st.script.isSome || o.source?.isSome) rest) with
      | .error f => .error (fatal f st)
      | .ok r => .ok (afterOptions r st, r.rest) := by
  rw [ih _ _ hrest]
  subst e
  rw [script_isSome_step]
  exact advance o st _ rfl _

theorem parseOptions_refines (n : Nat) : ∀ (k : Nat) (argv : List CStr) (st : State),
    argv.length ≤ k →
    parseOptions n argv st =
      match Spec.scan (decide (n ≠ 0)) st.script.isSome argv with
      | .error f => .error (fatal f st)
      | .ok r => .ok (afterOptions r st, r.rest) := by
  intro k
  induction k with
  | zero =>
    intro argv st h
    have : argv = [] := by simpa using h
    subst this
    simp [parseOptions, Spec.scan]
  | succ k ih =>
    intro argv st h
    cases argv with
    | nil => simp [parseOptions, Spec.scan]
    | cons a rest =>
      have hrest : rest.length ≤ k := by simpa using h
      rw [parseOptions_cons, Spec.scan.eq_2]
      unfold Spec.classify
      by_cases c1 : a.head? ≠ some '-'
      · simp only [if_pos c1, afterOptions_nil]
      simp only [if_neg c1]
      by_cases c2 : a = "--help".toList
      · simp only [if_pos c2, fatal]
      simp only [if_neg c2]
      by_cases c3 : a = "--version".toList
      · simp only [if_pos c3, fatal]
      simp only [if_neg c3]
      by_cases c4 : a = "--stdin".toList
      · simp only [if_pos c4]
        exact step_option n k ih _ st _ rest hrest (step_stdin st)
      simp only [if_neg c4]
      by_cases c5 : a = "-F".toList
      · simp only [if_pos c5]
        cases rest with
        | nil => simp only [fatal, Spec.Fatal.status]
        | cons x rest1 =>
          simp only []
          exact step_option n k ih _ st _ rest1 (by simp at hrest; omega) (step_fieldSep x st)
      simp only [if_neg c5]
      by_cases c6 : a.take 2 = "-F".toList
      · simp only [if_pos c6]
        exact step_option n k ih _ st _ rest hrest (step_fieldSep _ st)
      simp only [if_neg c6]
      by_cases c7 : a = "-v".toList ∨ a = "--assign".toList
      · simp only [if_pos c7]
        cases rest with
        | nil => simp only [fatal, Spec.Fatal.status]
        | cons x rest1 =>
          simp only []
          exact step_option n k ih _ st _ rest1 (by simp at hrest; omega) (step_assign x st)
      simp only [if_neg c7]
      by_cases c8 : a.take 2 = "-v".toList
      · simp only [if_pos c8]
        exact step_option n k ih _ st _ rest hrest (step_assign _ st)
      simp only [if_neg c8]
      by_cases c9 : a = "-f".toList ∨ a = "--file".toList
      · simp only [if_pos c9]
        cases rest with
        | nil => simp only [fatal, Spec.Fatal.status]
        | cons x rest1 =>
          simp only []
          exact step_option n k ih _ st _ rest1 (by simp at hrest; omega) (step_file x st)
      simp only [if_neg c9]
      by_cases c10 : a.take 2 = "-f".toList
      · simp only [if_pos c10]
        exact step_option n k ih _ st _ rest hrest (step_file _ st)
      simp only [if_neg c10]
      by_cases c11 : a = "-e".toList ∨ a = "--source".toList
      · simp only [if_pos c11]
        cases rest with
        | nil => simp only [fatal, Spec.Fatal.status]
        | cons x rest1 =>
          simp only []
          exact step_option n k ih _ st _ rest1 (by simp at hrest; omega) (step_source x st)
      simp only [if_neg c11]
      by_cases c12 : a.take 2 = "-e".toList
      · simp only [if_pos c12]
        exact step_option n k ih _ st _ rest hrest (step_source _ st)
      simp only [if_neg c12]
      by_cases c13 : a = "--exec".toList
      · simp only [if_pos c13]
        by_cases hn : n ≠ 0
        · cases hs : st.script with
          | none => simp [hn, hs, (step_exec st rest).symm]
          | some s => simp [hn, hs, fatal, Spec.Fatal.status]
        · by_cases hr : rest = []
          · simp [hn, hr, fatal, Spec.Fatal.status]
          · simp [hn, hr, step_exec st rest]
      simp only [if_neg c13]
      by_cases c14 : a = "--".toList
      · simp only [if_pos c14, afterOptions_nil]
      simp only [if_neg c14]
      by_cases c15 : a.take 2 = "--".toList
      · simp only [if_pos c15]
        exact step_option n k ih _ st _ rest hrest (step_passThrough _ st)
      simp only [if_neg c15]
      have hd : a.head? = some '-' := by simpa using c1
      by_cases c16 : a = "-".toList
      · subst c16
        simp
      · have : 1 < a.length := by
          cases a with
          | nil => simp at hd
          | cons c cs =>
            cases cs with
            | nil =>
              simp at hd
              subst hd
              exact absurd rfl c16
            | cons d ds => simp
        simp only [if_neg c16, if_pos this, fatal, Spec.Fatal.status]

theorem parseOptions_eq (n : Nat) (argv : List CStr) (st : State) :
    parseOptions n argv st =
      match Spec.scan (decide (n ≠ 0)) st.script.isSome argv with
      | .error f => .error (fatal f st)
      | .ok r => .ok (afterOptions r st, r.rest) :=
  parseOptions_refines n argv.length argv st (Nat.le_refl _)

theorem enterOptions_eq (cfg : Config) (st : State) :
    enterOptions cfg st =
      { st with new_argv := st.new_argv ++ none :: cfg.AWK2.toList.map some } := by
  cases h : cfg.AWK2 <;> simp [enterOptions, pushdup, array_pushdup, array_push, h]

theorem parseArgs_eq (cfg : Config) (env : Env) (args : List CStr) (st : State)
    (hcwd : env.getcwd = true) (hs : st.script = none) :
    parseArgs cfg env args st =
      match Spec.parse args with
      | .error f => .error (fatal f st)
      | .ok r => .ok (afterParse cfg env args r st, r.rest) := by
  unfold parseArgs
  simp only [hcwd, Bool.true_eq_false, if_false]
  rw [parseOptions_eq]
  unfold Spec.parse
  dsimp only
  have hs2 : (enterOptions cfg st).script.isSome = false := by simp [enterOptions_eq, hs]
  rw [hs2]
  generalize Spec.scan (decide ((shebangExpand args).argc ≠ 0)) false (shebangExpand args).args = sc
  cases sc with
  | error f =>
    simp only []
    exact congrArg _ (fatal_congr f st _ (by simp [enterOptions_eq]) (by simp [enterOptions_eq])
      (by simp [enterOptions_eq]) (by simp [enterOptions_eq]))
  | ok r =>
    simp only []
    by_cases hsb : (shebangExpand args).argc ≠ 0
    · simp only [if_pos hsb]
      by_cases hr : r.rest ≠ []
      · simp only [if_pos hr, fatal, Spec.Fatal.status]
        exact congrArg _ (die_congr 1 st _ (by simp [afterOptions, enterOptions_eq])
          (by simp [afterOptions, enterOptions_eq]) (by simp [afterOptions, enterOptions_eq])
          (by simp [afterOptions, enterOptions_eq]))
      · simp only [if_neg hr, afterParse, if_pos hsb]
        rfl
    · simp only [if_neg hsb, afterParse]

theorem foldl_pushdup (argv : List CStr) (st : State) :
    argv.foldl (fun s a => pushdup s (some a)) st =
      { st with new_argv := st.new_argv ++ argv.map some } := by
  induction argv generalizing st with
  | nil => simp
  | cons a argv ih =>
    rw [List.foldl_cons, ih]
    simp [pushdup, array_pushdup, array_push]

theorem completeArgv_eq (progname : CStr) (argv : List CStr) (st : State) :
    completeArgv progname argv st =
      { st with
        new_argv := st.new_argv.set 0 (some progname)
          ++ (if st.files = true ∧ st.execing = false then [some "--".toList] else [])
          ++ argv.map some
          ++ (if st.add_stdin then [some "/dev/stdin".toList] else [])
          ++ [none] } := by
  unfold completeArgv
  simp only [foldl_pushdup]
  cases st.files <;> cases st.execing <;> cases st.add_stdin <;>
    simp [pushdup, array_pushdup, array_push]

theorem finishArgv_file (cfg : Config) (env : Env) (p : CStr) (A : List CStr) (st : State)
    (hs : st.script = none) (hdup : env.xstrdup = true) :
    finishArgv cfg env (p :: A) st = .ok
      { st with
        files := true
        new_argv := (st.new_argv ++
            [some (if st.execing then "--exec".toList else "-f".toList), some p]).set 0 (some p)
          ++ (if st.execing then [] else [some "--".toList])
          ++ A.map some
          ++ (if st.add_stdin then [some "/dev/stdin".toList] else [])
          ++ [none] } := by
  unfold finishArgv
  simp only [hs, hdup, Bool.true_eq_false, if_false, completeArgv_eq]
  cases he : st.execing <;> cases ha : st.add_stdin <;>
    simp [add_file, pushdup, array_pushdup, array_push, he, ha, hs]

theorem finishArgv_inline (cfg : Config) (env : Env) (s : CStr) (argv : List CStr) (st : State)
    (hs : st.script = some s) (hf : st.files = false) (hdup : env.xstrdup = true) :
    finishArgv cfg env argv st = .ok
      { st with
        new_argv := (st.new_argv ++ [some "--".toList, some s]).set 0 (some cfg.AWK)
          ++ argv.map some
          ++ (if st.add_stdin then [some "/dev/stdin".toList] else [])
          ++ [none] } := by
  unfold finishArgv
  simp only [hs, hdup, add_buffer, hf, Bool.true_eq_false, if_false, if_true, completeArgv_eq]
  cases ha : st.add_stdin <;>
    simp [pushdup, array_pushdup, array_push, hf, ha, hs]

theorem finishArgv_tempfile (cfg : Config) (env : Env) (s path : CStr) (argv : List CStr)
    (st : State) (hs : st.script = some s) (hf : st.files = true)
    (hmk : env.mkstemp = some path) (hwr : env.write = some s.length) (hcl : env.close = true)
    (hdup : env.xstrdup = true) :
    finishArgv cfg env argv st = .ok
      { st with
        temp_fn := path
        temp_fn_created := true
        world := { st.world with tempFile := some (path, s), created := st.world.created + 1 }
        new_argv := (st.new_argv ++ [some "-f".toList, some path]).set 0 (some cfg.AWK)
          ++ (if st.execing then [] else [some "--".toList])
          ++ argv.map some
          ++ (if st.add_stdin then [some "/dev/stdin".toList] else [])
          ++ [none] } := by
  unfold finishArgv
  simp only [hs, hdup, add_buffer, hf, hmk, hwr, hcl, Bool.true_eq_false, if_false, if_true,
    completeArgv_eq]
  cases he : st.execing <;> cases ha : st.add_stdin <;>
    simp [pushdup, array_pushdup, array_push, hf, ha, he, hs]

theorem deliver_before_fork (l : List Nat) (st : State) (h : st.awk_pid = -1) :
    deliver l st = { st with killing_sig := l.getLast?.getD st.killing_sig } := by
  induction l generalizing st with
  | nil => simp [deliver]
  | cons a l ih =>
    have e : deliver (a :: l) st = deliver l (handler a st) := rfl
    have h2 : handler a st = { st with killing_sig := a } := by simp [handler, h]
    rw [e, h2, ih _ (by simpa using h)]
    cases l with
    | nil => simp
    | cons b l =>
      simp only [List.getLast?_cons_cons]
      rw [List.getLast?_eq_getLast _ (List.cons_ne_nil b l)]
      simp

theorem afterParse_start (cfg : Config) (env : Env) (args : List CStr) (r : Spec.Parsed) :
    afterParse cfg env args r (deliver env.sigsBeforeFork {}) =
      { killing_sig := env.sigsBeforeFork.getLast?.getD 0
        new_argv := none :: (cfg.AWK2.toList ++ Spec.translate r.opts).map some
        add_stdin := Spec.hasStdin r.opts
        files := Spec.hasFile r.opts
        execing := r.exec
        script := if (shebangExpand args).argc ≠ 0 then (Spec.script r.opts).map env.afterFree
          else Spec.script r.opts } := by
  rw [deliver_before_fork _ _ rfl]
  unfold afterParse
  simp only [afterOptions, enterOptions_eq]
  by_cases h : (shebangExpand args).argc ≠ 0
  · simp only [if_pos h]
    cases Spec.script r.opts <;> simp
  · simp only [if_neg h]
    cases Spec.script r.opts <;> simp

theorem buildArgv_eq (cfg : Config) (env : Env) (args : List CStr) (r : Spec.Parsed)
    (hcwd : env.getcwd = true) (hparse : Spec.parse args = .ok r) :
    buildArgv cfg env args (deliver env.sigsBeforeFork {}) =
      finishArgv cfg env r.rest (afterParse cfg env args r (deliver env.sigsBeforeFork {})) := by
  unfold buildArgv
  rw [parseArgs_eq cfg env args _ hcwd (by rw [deliver_before_fork _ _ rfl]), hparse]

/-- C1: when the arguments parse, by the option table and after shebang
expansion, to the options `r.opts` with no inline script and leave the
program file `p` followed by the arguments `A`, and `getcwd` and `xstrdup`
succeed, the finished argument vector is: slot 0 (it holds `p`), `AWK2` when
configured, the translated option tokens, then `-f`, `p`, `--` outside
direct-execution mode and `--exec`, `p` (no `--`) in it, then `A` in order,
then `/dev/stdin` exactly when `--stdin` was parsed, then `NULL`. -/
theorem program_file_queue (cfg : Config) (env : Env) (args : List CStr) (r : Spec.Parsed)
    (p : CStr) (A : List CStr)
    (hcwd : env.getcwd = true) (hdup : env.xstrdup = true)
    (hparse : Spec.parse args = .ok r) (hscript : Spec.script r.opts = none)
    (hrest : r.rest = p :: A) :
    finishedArgv cfg env args = some
      (some p :: (cfg.AWK2.toList ++ Spec.translate r.opts).map some
        ++ (if r.exec then [some "--exec".toList, some p]
            else [some "-f".toList, some p, some "--".toList])
        ++ A.map some
        ++ (if Spec.hasStdin r.opts then [some "/dev/stdin".toList] else [])
        ++ [none]) := by
  unfold finishedArgv
  rw [buildArgv_eq cfg env args r hcwd hparse, hrest, afterParse_start,
    finishArgv_file cfg env p A _ (by simp [hscript]) hdup]
  cases r.exec <;> simp

theorem set_zero_slot (x : Option CStr) (l m : List (Option CStr)) :
    ((none :: l) ++ m).set 0 x = x :: l ++ m := by
  simp

/-- Witness for C1: `-F: --stdin -v x=1 prog.awk in.txt`, and
`--lint --exec prog.awk in.txt` in direct-execution mode. -/
theorem program_file_queue_witness :
    finishedArgv defaultConfig (quietEnv 0)
        ["-F:".toList, "--stdin".toList, "-v".toList, "x=1".toList, "prog.awk".toList,
          "in.txt".toList] =
      some [some "prog.awk".toList, some "-F".toList, some ":".toList, some "-v".toList,
        some "x=1".toList, some "-f".toList, some "prog.awk".toList, some "--".toList,
        some "in.txt".toList, some "/dev/stdin".toList, none] ∧
    finishedArgv defaultConfig (quietEnv 0)
        ["--lint".toList, "--exec".toList, "prog.awk".toList, "in.txt".toList] =
      some [some "prog.awk".toList, some "--lint".toList, some "--exec".toList,
        some "prog.awk".toList, some "in.txt".toList, none] :=
  ⟨program_file_queue defaultConfig (quietEnv 0) _
      ⟨[.fieldSep ":".toList, .stdin, .assign "x=1".toList], false,
        ["prog.awk".toList, "in.txt".toList]⟩
      "prog.awk".toList ["in.txt".toList] rfl rfl rfl rfl rfl,
   program_file_queue defaultConfig (quietEnv 0) _
      ⟨[.passThrough "--lint".toList], true, ["prog.awk".toList, "in.txt".toList]⟩
      "prog.awk".toList ["in.txt".toList] rfl rfl rfl rfl rfl⟩

theorem handler_fields (n : Nat) (st : State) :
    (handler n st).temp_fn = st.temp_fn ∧
    (handler n st).temp_fn_created = st.temp_fn_created ∧
    (handler n st).awk_pid = st.awk_pid ∧
    (handler n st).world.tempFile = st.world.tempFile ∧
    (handler n st).world.created = st.world.created ∧
    (handler n st).world.child = st.world.child ∧
    (handler n st).world.stdout = st.world.stdout := by
  unfold handler
  by_cases h : st.awk_pid ≠ -1
  · simp [h]
  · simp [h]

theorem deliver_fields (l : List Nat) (st : State) :
    (deliver l st).temp_fn = st.temp_fn ∧
    (deliver l st).temp_fn_created = st.temp_fn_created ∧
    (deliver l st).awk_pid = st.awk_pid ∧
    (deliver l st).world.tempFile = st.world.tempFile ∧
    (deliver l st).world.created = st.world.created ∧
    (deliver l st).world.child = st.world.child ∧
    (deliver l st).world.stdout = st.world.stdout := by
  induction l generalizing st with
  | nil => simp [deliver]
  | cons a l ih =>
    have e : deliver (a :: l) st = deliver l (handler a st) := rfl
    rw [e]
    obtain ⟨h1, h2, h3, h4, h5, h6, h7⟩ := ih (handler a st)
    obtain ⟨g1, g2, g3, g4, g5, g6, g7⟩ := handler_fields a st
    exact ⟨h1.trans g1, h2.trans g2, h3.trans g3, h4.trans g4, h5.trans g5, h6.trans g6,
      h7.trans g7⟩

theorem die_created (s : Nat) (st : State) : (die s st).world.created = st.world.created := by
  unfold die unlink
  cases st.temp_fn_created <;> cases h : st.world.tempFile <;> simp <;> split <;> simp <;>
    split <;> simp

theorem supervise_created (cfg : Config) (env : Env) (st : State) :
    (supervise cfg env st).world.created = st.world.created := by
  unfold supervise
  cases env.fork with
  | none => simp [die_created]
  | some pid =>
    simp only []
    split_ifs <;> simp [die_created, (deliver_fields _ _).2.2.2.2.1]

theorem main_eq (cfg : Config) (env : Env) (args : List CStr) (st : State)
    (h : buildArgv cfg env args (deliver env.sigsBeforeFork {}) = .ok st) :
    main cfg env args = supervise cfg env st := by
  cases args with
  | nil =>
    exfalso
    by_cases hcwd : env.getcwd = true
    · rw [buildArgv_eq cfg env [] ⟨[], false, []⟩ hcwd rfl, afterParse_start] at h
      simp [finishArgv, Spec.script] at h
    · simp [buildArgv, parseArgs, hcwd] at h
  | cons a rest =>
    unfold main
    simp only [h]

theorem afterParse_script (cfg : Config) (env : Env) (args : List CStr) (r : Spec.Parsed)
    (s : CStr) (hscript : Spec.script r.opts = some s) :
    (afterParse cfg env args r (deliver env.sigsBeforeFork {})).script =
      some (scriptRead env args s) := by
  rw [afterParse_start]
  unfold scriptRead
  by_cases h : (shebangExpand args).argc ≠ 0 <;> simp [h, hscript]

/-- The queue for an inline script when no library file was registered: the
token after `--` is what `main` reads through `script`. -/
theorem inline_script_queue (cfg : Config) (env : Env) (args : List CStr) (r : Spec.Parsed)
    (s : CStr) (hcwd : env.getcwd = true) (hdup : env.xstrdup = true)
    (hparse : Spec.parse args = .ok r) (hscript : Spec.script r.opts = some s)
    (hfile : Spec.hasFile r.opts = false) :
    finishedArgv cfg env args = some
      (some cfg.AWK :: (cfg.AWK2.toList ++ Spec.translate r.opts).map some
        ++ [some "--".toList, some (scriptRead env args s)]
        ++ r.rest.map some
        ++ (if Spec.hasStdin r.opts then [some "/dev/stdin".toList] else [])
        ++ [none]) ∧
    (main cfg env args).world.created = 0 := by
  have hb := buildArgv_eq cfg env args r hcwd hparse
  have hs := afterParse_script cfg env args r s hscript
  have hf : (afterParse cfg env args r (deliver env.sigsBeforeFork {})).files = false := by
    rw [afterParse_start]; exact hfile
  rw [finishArgv_inline cfg env _ r.rest _ hs hf hdup] at hb
  constructor
  · unfold finishedArgv
    rw [hb]
    simp only [afterParse_start]
    simp
  · rw [main_eq cfg env args _ hb, supervise_created]
    simp only [afterParse_start]

/-- C3, the code at the failing input `-e x` (one argument) followed by
`prog`: shebang expansion gives `-e`, `x`; `script` points to the token `x`
inside `shebang.array`, which `array_free` releases before `add_buffer` reads
it, so the token after `--` is whatever the released bytes read as, for
every such reading `g`. -/
theorem inline_script_read_after_free (g : CStr → CStr) :
    finishedArgv defaultConfig { quietEnv 0 with afterFree := g }
        ["-e x".toList, "prog".toList] =
      some [some "/usr/local/bin/gawk".toList, some "--".toList, some (g "x".toList),
        some "prog".toList, none] :=
  rfl

/-- Counterexample to C4 as stated, where creation, write and close succeed:
for `-f a.awk -e x x` the script `x` is a token of the queue (the positional
argument, passed on verbatim); for `-f a.awk -e --` the script `--` is a
token of the queue (the terminator that follows the temporary file). -/
theorem tempfile_queue_counterexample :
    Spec.parse ["-f".toList, "a.awk".toList, "-e".toList, "x".toList, "x".toList] =
      .ok ⟨[.file "a.awk".toList, .source "x".toList], false, ["x".toList]⟩ ∧
    finishedArgv defaultConfig (quietEnv 1)
        ["-f".toList, "a.awk".toList, "-e".toList, "x".toList, "x".toList] =
      some [some "/usr/local/bin/gawk".toList, some "-f".toList, some "a.awk".toList,
        some "-f".toList, some "/tmp/runawk.Ab3dE9".toList, some "--".toList,
        some "x".toList, none] ∧
    some "x".toList ∈ [some "/usr/local/bin/gawk".toList, some "-f".toList,
        some "a.awk".toList, some "-f".toList, some "/tmp/runawk.Ab3dE9".toList,
        some "--".toList, some "x".toList, none] ∧
    Spec.parse ["-f".toList, "a.awk".toList, "-e".toList, "--".toList] =
      .ok ⟨[.file "a.awk".toList, .source "--".toList], false, []⟩ ∧
    finishedArgv defaultConfig (quietEnv 2)
        ["-f".toList, "a.awk".toList, "-e".toList, "--".toList] =
      some [some "/usr/local/bin/gawk".toList, some "-f".toList, some "a.awk".toList,
        some "-f".toList, some "/tmp/runawk.Ab3dE9".toList, some "--".toList, none] ∧
    some "--".toList ∈ [some "/usr/local/bin/gawk".toList, some "-f".toList,
        some "a.awk".toList, some "-f".toList, some "/tmp/runawk.Ab3dE9".toList,
        some "--".toList, none] :=
  ⟨rfl, rfl, by decide, rfl, rfl, by decide⟩

/-- C4, amended: for arguments that do not trigger shebang expansion, whose
option parsing is not ended by `--exec`, that set the inline script `s` and
register a library file, when `getcwd`, `mkstemp`, `write` (of all of `s`),
`close` and `xstrdup` succeed, `main` reaches `fork` with exactly one
temporary file created, whose content is `s`, and with the queue: slot 0
(the interpreter), `AWK2` when configured, the translated option tokens,
`-f`, the temporary path, `--`, the positional arguments, `/dev/stdin`
exactly when `--stdin` was parsed, `NULL`. The text `s` is a token of the
queue only if it is equal to one of those tokens. The whole run creates one
temporary file. -/
theorem tempfile_queue (cfg : Config) (env : Env) (args : List CStr) (r : Spec.Parsed)
    (s path : CStr) (hcwd : env.getcwd = true) (hdup : env.xstrdup = true)
    (hmk : env.mkstemp = some path) (hwr : env.write = some s.length)
    (hcl : env.close = true) (hsb : (shebangExpand args).argc = 0)
    (hparse : Spec.parse args = .ok r) (hexec : r.exec = false)
    (hscript : Spec.script r.opts = some s) (hfile : Spec.hasFile r.opts = true) :
    (∃ st, buildArgv cfg env args (deliver env.sigsBeforeFork {}) = .ok st ∧
      st.world.tempFile = some (path, s) ∧
      st.world.created = 1 ∧
      st.new_argv =
        some cfg.AWK :: (cfg.AWK2.toList ++ Spec.translate r.opts).map some
          ++ [some "-f".toList, some path, some "--".toList]
          ++ r.rest.map some
          ++ (if Spec.hasStdin r.opts then [some "/dev/stdin".toList] else [])
          ++ [none] ∧
      (some s ∈ st.new_argv →
        s = cfg.AWK ∨ s ∈ cfg.AWK2.toList ∨ s ∈ Spec.translate r.opts ∨ s = "-f".toList ∨
          s = path ∨ s = "--".toList ∨ s ∈ r.rest ∨
          (Spec.hasStdin r.opts = true ∧ s = "/dev/stdin".toList))) ∧
    (main cfg env args).world.created = 1 := by
  have hb := buildArgv_eq cfg env args r hcwd hparse
  have hs := afterParse_script cfg env args r s hscript
  have hread : scriptRead env args s = s := by simp [scriptRead, hsb]
  rw [hread] at hs
  have hf : (afterParse cfg env args r (deliver env.sigsBeforeFork {})).files = true := by
    rw [afterParse_start]; exact hfile
  rw [finishArgv_tempfile cfg env s path r.rest _ hs hf hmk hwr hcl hdup] at hb
  refine ⟨⟨_, hb, ?_, ?_, ?_, ?_⟩, ?_⟩
  · simp only [afterParse_start]
  · simp only [afterParse_start]
  · simp only [afterParse_start, hexec]
    simp
  · simp only [afterParse_start, hexec]
    cases Spec.hasStdin r.opts <;> cases cfg.AWK2 <;> simp
  · rw [main_eq cfg env args _ hb, supervise_created]
    simp only [afterParse_start]

/-- Witness for C4 (amended): `-f a.awk -e BEGIN in.txt`; the script text is
no token of the queue. -/
theorem tempfile_queue_witness :
    (∃ st, buildArgv defaultConfig (quietEnv 5)
        ["-f".toList, "a.awk".toList, "-e".toList, "BEGIN".toList, "in.txt".toList]
        (deliver (quietEnv 5).sigsBeforeFork {}) = .ok st ∧
      st.world.tempFile = some ("/tmp/runawk.Ab3dE9".toList, "BEGIN".toList) ∧
      st.world.created = 1 ∧
      st.new_argv =
        [some "/usr/local/bin/gawk".toList, some "-f".toList, some "a.awk".toList,
          some "-f".toList, some "/tmp/runawk.Ab3dE9".toList, some "--".toList,
          some "in.txt".toList, none] ∧
      some "BEGIN".toList ∉ st.new_argv) ∧
    (main defaultConfig (quietEnv 5)
      ["-f".toList, "a.awk".toList, "-e".toList, "BEGIN".toList, "in.txt".toList]).world.created
        = 1 := by
  obtain ⟨⟨st, h1, h2, h3, h4, h5⟩, h6⟩ := tempfile_queue defaultConfig (quietEnv 5)
    ["-f".toList, "a.awk".toList, "-e".toList, "BEGIN".toList, "in.txt".toList]
    ⟨[.file "a.awk".toList, .source "BEGIN".toList], false, ["in.txt".toList]⟩
    "BEGIN".toList "/tmp/runawk.Ab3dE9".toList rfl rfl rfl rfl rfl rfl rfl rfl rfl rfl
  exact ⟨⟨st, h1, h2, h3, h4, fun h => absurd (h5 h) (by decide)⟩, h6⟩

theorem die_removes (s : Nat) (st : State) (h : TempOwned st) :
    (die s st).world.tempFile = none := by
  unfold die unlink
  rcases h with h | ⟨h1, c, h2⟩
  · cases st.temp_fn_created <;> simp [h] <;> split <;> simp [h]
  · simp [h1, h2]
    split <;> simp

theorem fatal_removes (f : Spec.Fatal) (st : State) (h : st.world.tempFile = none) :
    (fatal f st).world.tempFile = none := by
  cases f <;> exact die_removes _ _ (Or.inl (by simp [usage, version, h]))

theorem deliver_owned (l : List Nat) (st : State) (h : TempOwned st) :
    TempOwned (deliver l st) := by
  obtain ⟨h1, h2, _, h4, _⟩ := deliver_fields l st
  unfold TempOwned
  rw [h1, h2, h4]
  exact h

theorem owned_congr (a b : State) (h1 : b.temp_fn = a.temp_fn)
    (h2 : b.temp_fn_created = a.temp_fn_created) (h3 : b.world.tempFile = a.world.tempFile)
    (h : TempOwned a) : TempOwned b := by
  unfold TempOwned
  rw [h1, h2, h3]
  exact h

theorem supervise_removes (cfg : Config) (env : Env) (st : State) (h : TempOwned st) :
    (supervise cfg env st).world.tempFile = none := by
  unfold supervise
  cases env.fork with
  | none => exact die_removes _ _ (owned_congr st _ rfl rfl rfl h)
  | some pid =>
    simp only []
    split_ifs <;>
    · apply die_removes
      apply deliver_owned
      apply owned_congr (deliver env.sigsWhileWaiting _) _ rfl rfl rfl
      apply deliver_owned
      exact owned_congr st _ rfl rfl rfl h

theorem completeArgv_owned (name : CStr) (argv : List CStr) (st : State) (h : TempOwned st) :
    TempOwned (completeArgv name argv st) := by
  rw [completeArgv_eq]
  exact owned_congr st _ rfl rfl rfl h

theorem finishArgv_owned (cfg : Config) (env : Env) (argv : List CStr) (st : State)
    (h : st.world.tempFile = none) :
    match finishArgv cfg env argv st with
    | .error o => o.world.tempFile = none
    | .ok st1 => TempOwned st1 := by
  unfold finishArgv
  cases hs : st.script with
  | none =>
    cases argv with
    | nil => exact die_removes _ _ (Or.inl (by simp [usage, h]))
    | cons p A =>
      have h1 : TempOwned (add_file p st.execing st) := Or.inl (by simp [add_file, pushdup, h])
      cases hdup : env.xstrdup with
      | false => exact die_removes _ _ h1
      | true => exact completeArgv_owned p A _ h1
  | some s =>
    simp only []
    have key : match add_buffer env s s.length st with
        | .error o => o.world.tempFile = none
        | .ok st1 => TempOwned st1 := by
      unfold add_buffer
      cases hf : st.files with
      | false => exact Or.inl (by simp [pushdup, h])
      | true =>
        simp only [Bool.true_eq_false, if_false]
        cases hmk : env.mkstemp with
        | none => exact die_removes _ _ (Or.inl (by simp [h]))
        | some path =>
          simp only [if_false]
          cases hwr : env.write with
          | none =>
            simp
            exact die_removes _ _ (Or.inr ⟨rfl, [], rfl⟩)
          | some n =>
            by_cases hn : n = s.length
            · subst hn
              simp
              cases hcl : env.close with
              | false =>
                simp
                exact die_removes _ _ (Or.inr ⟨rfl, _, rfl⟩)
              | true =>
                simp
                exact Or.inr ⟨rfl, _, rfl⟩
            · simp [hn]
              exact die_removes _ _ (Or.inr ⟨rfl, _, rfl⟩)
    cases hb : add_buffer env s s.length st with
    | error o =>
      rw [hb] at key
      exact key
    | ok st1 =>
      rw [hb] at key
      simp only []
      cases hdup : env.xstrdup with
      | false => exact die_removes _ _ key
      | true => exact completeArgv_owned _ _ _ key

theorem start_world (env : Env) : (deliver env.sigsBeforeFork {}).world = {} := by
  rw [deliver_before_fork _ _ rfl]

theorem buildArgv_owned (cfg : Config) (env : Env) (args : List CStr) :
    match buildArgv cfg env args (deliver env.sigsBeforeFork {}) with
    | .error o => o.world.tempFile = none
    | .ok st => TempOwned st := by
  cases hcwd : env.getcwd with
  | false =>
    have e : buildArgv cfg env args (deliver env.sigsBeforeFork {}) =
        .error (die 32 (deliver env.sigsBeforeFork {})) := by
      simp [buildArgv, parseArgs, hcwd]
    rw [e]
    exact die_removes _ _ (Or.inl (by rw [start_world]))
  | true =>
    cases hp : Spec.parse args with
    | error f =>
      have e : buildArgv cfg env args (deliver env.sigsBeforeFork {}) =
          .error (fatal f (deliver env.sigsBeforeFork {})) := by
        unfold buildArgv
        rw [parseArgs_eq cfg env args _ hcwd (by rw [deliver_before_fork _ _ rfl]), hp]
      rw [e]
      exact fatal_removes _ _ (by rw [start_world])
    | ok r =>
      rw [buildArgv_eq cfg env args r hcwd hp]
      exact finishArgv_owned cfg env r.rest _ (by rw [afterParse_start])

/-- C5: on every run of `main` (any arguments, any result of `getcwd`,
`mkstemp`, `write`, `close`, `xstrdup`, `fork` and `waitpid`, any signals
delivered), no temporary file of the process exists when it exits: a file
that was created has been removed. -/
theorem temp_file_removed (cfg : Config) (env : Env) (args : List CStr) :
    (main cfg env args).world.tempFile = none := by
  cases args with
  | nil => rfl
  | cons a rest =>
    have key := buildArgv_owned cfg env (a :: rest)
    unfold main
    simp only []
    cases hb : buildArgv cfg env (a :: rest) (deliver env.sigsBeforeFork {}) with
    | error o =>
      rw [hb] at key
      exact key
    | ok st =>
      rw [hb] at key
      exact supervise_removes cfg env st key

theorem deliver_killing_sig (l : List Nat) (st : State) :
    (deliver l st).killing_sig = l.getLast?.getD st.killing_sig := by
  induction l generalizing st with
  | nil => simp [deliver]
  | cons a l ih =>
    have e : deliver (a :: l) st = deliver l (handler a st) := rfl
    have h2 : (handler a st).killing_sig = a := by
      unfold handler
      by_cases h : st.awk_pid ≠ -1 <;> simp [h]
    rw [e, ih, h2]
    cases l with
    | nil => simp
    | cons b l =>
      simp only [List.getLast?_cons_cons]
      rw [List.getLast?_eq_getLast _ (List.cons_ne_nil b l)]
      simp

theorem deliver_killed (l : List Nat) (st : State) (h : st.awk_pid ≠ -1) :
    (deliver l st).world.killed = st.world.killed ++ l.map (fun n => (st.awk_pid, n)) := by
  induction l generalizing st with
  | nil => simp [deliver]
  | cons a l ih =>
    have e : deliver (a :: l) st = deliver l (handler a st) := rfl
    have h2 : (handler a st).world.killed = st.world.killed ++ [(st.awk_pid, a)] := by
      simp [handler, h]
    have h3 : (handler a st).awk_pid = st.awk_pid := (handler_fields a st).2.2.1
    rw [e, ih _ (by rw [h3]; exact h), h2, h3]
    simp

theorem finishArgv_frame (cfg : Config) (env : Env) (argv : List CStr) (st st1 : State)
    (h : finishArgv cfg env argv st = .ok st1) :
    st1.killing_sig = st.killing_sig ∧ st1.awk_pid = st.awk_pid ∧
      st1.world.killed = st.world.killed := by
  by_cases hdup : env.xstrdup = true
  · cases hs : st.script with
    | none =>
      cases argv with
      | nil => simp [finishArgv, hs] at h
      | cons p A =>
        rw [finishArgv_file cfg env p A st hs hdup] at h
        injection h with h
        subst h
        exact ⟨rfl, rfl, rfl⟩
    | some s =>
      cases hf : st.files with
      | false =>
        rw [finishArgv_inline cfg env s argv st hs hf hdup] at h
        injection h with h
        subst h
        exact ⟨rfl, rfl, rfl⟩
      | true =>
        cases hmk : env.mkstemp with
        | none => simp [finishArgv, hs, add_buffer, hf, hmk] at h
        | some path =>
          by_cases hwr : env.write = some s.length
          · cases hcl : env.close with
            | false => simp [finishArgv, hs, add_buffer, hf, hmk, hwr, hcl] at h
            | true =>
              rw [finishArgv_tempfile cfg env s path argv st hs hf hmk hwr hcl hdup] at h
              injection h with h
              subst h
              exact ⟨rfl, rfl, rfl⟩
          · simp [finishArgv, hs, add_buffer, hf, hmk, hwr] at h
  · have hd : env.xstrdup = false := by simpa using hdup
    unfold finishArgv at h
    simp only [hd, if_true] at h
    split at h <;> simp at h

/-- The state in which `main` reaches `fork`. -/
theorem reach_fork (cfg : Config) (env : Env) (args : List CStr)
    (h : (finishedArgv cfg env args).isSome = true) :
    ∃ st, buildArgv cfg env args (deliver env.sigsBeforeFork {}) = .ok st ∧
      main cfg env args = supervise cfg env st ∧
      st.killing_sig = env.sigsBeforeFork.getLast?.getD 0 ∧
      st.awk_pid = -1 ∧ st.world.killed = [] := by
  unfold finishedArgv at h
  cases hb : buildArgv cfg env args (deliver env.sigsBeforeFork {}) with
  | error o => rw [hb] at h; simp at h
  | ok st =>
    refine ⟨st, rfl, main_eq cfg env args st hb, ?_⟩
    cases hcwd : env.getcwd with
    | false => simp [buildArgv, parseArgs, hcwd] at hb
    | true =>
      cases hp : Spec.parse args with
      | error f =>
        unfold buildArgv at hb
        rw [parseArgs_eq cfg env args _ hcwd (by rw [deliver_before_fork _ _ rfl]), hp] at hb
        simp at hb
      | ok r =>
        rw [buildArgv_eq cfg env args r hcwd hp] at hb
        obtain ⟨h1, h2, h3⟩ := finishArgv_frame cfg env _ _ _ hb
        rw [h1, h2, h3, afterParse_start]
        exact ⟨rfl, rfl, rfl⟩

theorem die_status (s : Nat) (st : State) :
    (die s st).status = if st.killing_sig ≠ 0 then 128 + st.killing_sig else s := by
  unfold die
  split_ifs <;> rfl

/-- The parent after `fork` succeeded: the exit status in terms of the
signals recorded and the child's status. -/
theorem supervise_status (cfg : Config) (env : Env) (st : State) (pid : Nat)
    (hf : env.fork = some pid) :
    (supervise cfg env st).status =
      let recorded := env.sigsWhileWaiting.getLast?.getD st.killing_sig
      let final := env.sigsBeforeDie.getLast?.getD recorded
      let cs := env.waitpid.getD statusZero
      let requested :=
        if recorded ≠ 0 then 0
        else if cs.WIFSIGNALED then 128 + cs.WTERMSIG
        else if cs.WIFEXITED then cs.WEXITSTATUS
        else 200
      if final ≠ 0 then 128 + final else requested := by
  unfold supervise
  simp only [hf, deliver_killing_sig]
  split_ifs <;> simp_all [die_status, deliver_killing_sig]

/-- C6: when `main` reaches `fork`, `fork` succeeds, `waitpid` stores the
status `cs` and no signal is delivered: a child killed by a signal gives exit
status 128 plus that signal number, a child that exited normally gives its
exit code, any other status gives 200. -/
theorem child_status_mapping (cfg : Config) (env : Env) (args : List CStr) (pid : Nat)
    (cs : ChildStatus) (hreach : (finishedArgv cfg env args).isSome = true)
    (h0 : env.sigsBeforeFork = []) (h1 : env.sigsWhileWaiting = [])
    (h2 : env.sigsBeforeDie = []) (hf : env.fork = some pid) (hw : env.waitpid = some cs) :
    (cs.WIFSIGNALED = true → (main cfg env args).status = 128 + cs.WTERMSIG) ∧
    (cs.WIFSIGNALED = false → cs.WIFEXITED = true →
      (main cfg env args).status = cs.WEXITSTATUS) ∧
    (cs.WIFSIGNALED = false → cs.WIFEXITED = false → (main cfg env args).status = 200) := by
  obtain ⟨st, _, hm, hk, _, _⟩ := reach_fork cfg env args hreach
  rw [hm, supervise_status cfg env st pid hf, hk, h0, h1, h2, hw]
  refine ⟨?_, ?_, ?_⟩
  · intro h; simp [h]
  · intro h h'; simp [h, h']
  · intro h h'; simp [h, h']

/-- Witness for C6: a child killed by signal 9, one that exits with 3, and
an unexpected status. -/
theorem child_status_mapping_witness :
    (main defaultConfig { quietEnv 0 with waitpid := some ⟨true, 9, false, 0⟩ }
      ["prog.awk".toList]).status = 128 + 9 ∧
    (main defaultConfig { quietEnv 0 with waitpid := some ⟨false, 0, true, 3⟩ }
      ["prog.awk".toList]).status = 3 ∧
    (main defaultConfig { quietEnv 0 with waitpid := some ⟨false, 0, false, 0⟩ }
      ["prog.awk".toList]).status = 200 :=
  ⟨(child_status_mapping defaultConfig { quietEnv 0 with waitpid := some ⟨true, 9, false, 0⟩ }
      ["prog.awk".toList] 4242 ⟨true, 9, false, 0⟩ rfl rfl rfl rfl rfl rfl).1 rfl,
   (child_status_mapping defaultConfig { quietEnv 0 with waitpid := some ⟨false, 0, true, 3⟩ }
      ["prog.awk".toList] 4242 ⟨false, 0, true, 3⟩ rfl rfl rfl rfl rfl rfl).2.1 rfl rfl,
   (child_status_mapping defaultConfig { quietEnv 0 with waitpid := some ⟨false, 0, false, 0⟩ }
      ["prog.awk".toList] 4242 ⟨false, 0, false, 0⟩ rfl rfl rfl rfl rfl rfl).2.2 rfl rfl⟩

theorem die_killed (s : Nat) (st : State) : (die s st).world.killed = st.world.killed := by
  unfold die unlink
  cases st.temp_fn_created <;> cases h : st.world.tempFile <;> simp <;> split <;> simp <;>
    split <;> simp

theorem supervise_killed (cfg : Config) (env : Env) (st : State) (pid : Nat)
    (hf : env.fork = some pid) :
    (supervise cfg env st).world.killed =
      st.world.killed ++
        (env.sigsWhileWaiting ++ env.sigsBeforeDie).map (fun n => ((pid : Int), n)) := by
  have hp : ((pid : Int)) ≠ -1 := by omega
  unfold supervise
  simp only [hf]
  split_ifs <;>
  · rw [die_killed, deliver_killed _ _ (by rw [(deliver_fields _ _).2.2.1]; exact hp)]
    simp only [(deliver_fields _ _).2.2.1]
    rw [deliver_killed _ _ hp]
    simp

theorem sigs_ne_zero (n : Nat) (hn : n ∈ sigs) : n ≠ 0 := by
  simp [sigs, SIGINT, SIGQUIT, SIGTERM, SIGHUP, SIGPIPE] at hn
  omega

/-- C7: for a handled signal `n`: with a child running (`awk_pid` set),
`handler` records `n` and sends exactly `n` to the child; once `n` is
recorded `die` exits with 128 + `n` whatever status is requested, and with no
signal recorded it exits with the requested status; and a run in which `n`
is the only signal, delivered while the child runs, sends `n` to the child
once and exits with 128 + `n`. -/
theorem signal_relay (n : Nat) (hn : n ∈ sigs) :
    (∀ st : State, st.awk_pid ≠ -1 →
      (handler n st).killing_sig = n ∧
      (handler n st).world.killed = st.world.killed ++ [(st.awk_pid, n)]) ∧
    (∀ (s : Nat) (st : State), st.killing_sig = n → (die s st).status = 128 + n) ∧
    (∀ (s : Nat) (st : State), st.killing_sig = 0 → (die s st).status = s) ∧
    (∀ (cfg : Config) (env : Env) (args : List CStr) (pid : Nat),
      (finishedArgv cfg env args).isSome = true → env.fork = some pid →
      env.sigsBeforeFork = [] → env.sigsWhileWaiting = [n] → env.sigsBeforeDie = [] →
      (main cfg env args).status = 128 + n ∧
      (main cfg env args).world.killed = [((pid : Int), n)]) := by
  have hz := sigs_ne_zero n hn
  refine ⟨?_, ?_, ?_, ?_⟩
  · intro st h
    simp [handler, h]
  · intro s st h
    simp [die_status, h, hz]
  · intro s st h
    simp [die_status, h]
  · intro cfg env args pid hreach hf h0 h1 h2
    obtain ⟨st, _, hm, hk, _, hkd⟩ := reach_fork cfg env args hreach
    rw [hm, supervise_status cfg env st pid hf, supervise_killed cfg env st pid hf, hk, hkd,
      h0, h1, h2]
    simp [hz]

/-- Witness for C7: `SIGINT` while the child of `prog.awk` runs. -/
theorem signal_relay_witness :
    (main defaultConfig { quietEnv 0 with sigsWhileWaiting := [SIGINT] }
      ["prog.awk".toList]).status = 128 + SIGINT ∧
    (main defaultConfig { quietEnv 0 with sigsWhileWaiting := [SIGINT] }
      ["prog.awk".toList]).world.killed = [(4242, SIGINT)] :=
  (signal_relay SIGINT (by decide)).2.2.2 defaultConfig
    { quietEnv 0 with sigsWhileWaiting := [SIGINT] } ["prog.awk".toList] 4242 rfl rfl rfl rfl rfl

/-- Counterexample to C8 as stated: `SIGINT` is recorded while the parent
waits, the child exits with 0, and the parent exits with 130, not 0. -/
theorem exit_zero_after_signal_counterexample :
    (main defaultConfig { quietEnv 0 with sigsWhileWaiting := [SIGINT] }
      ["prog.awk".toList]).status = 130 ∧
    (main defaultConfig { quietEnv 0 with sigsWhileWaiting := [SIGINT] }
      ["prog.awk".toList]).status ≠ 0 :=
  ⟨rfl, by decide⟩

/-- C8, amended: when a signal `n` is on record as the parent tests
`killing_sig` after the wait, the parent asks `die` for status 0 and `die`
exits with 128 + the signal on record then (`n`, or the last one delivered
since), whatever the child's termination state. -/
theorem exit_after_recorded_signal (cfg : Config) (env : Env) (args : List CStr) (pid n : Nat)
    (hreach : (finishedArgv cfg env args).isSome = true) (hf : env.fork = some pid)
    (hrec : (env.sigsBeforeFork ++ env.sigsWhileWaiting).getLast? = some n) (hn : n ≠ 0)
    (hlate : ∀ m ∈ env.sigsBeforeDie, m ≠ 0) :
    (main cfg env args).status = 128 + env.sigsBeforeDie.getLast?.getD n := by
  obtain ⟨st, _, hm, hk, _, _⟩ := reach_fork cfg env args hreach
  rw [hm, supervise_status cfg env st pid hf, hk]
  have e : env.sigsWhileWaiting.getLast?.getD (env.sigsBeforeFork.getLast?.getD 0) = n := by
    rw [List.getLast?_append] at hrec
    cases h2 : env.sigsWhileWaiting.getLast? with
    | none => simp [h2] at hrec; simp [hrec]
    | some x => simp [h2] at hrec; simp [hrec]
  have e2 : env.sigsBeforeDie.getLast?.getD n ≠ 0 := by
    cases h3 : env.sigsBeforeDie.getLast? with
    | none => simpa using hn
    | some x =>
      simp only [Option.getD_some]
      exact hlate x (List.mem_of_getLast?_eq_some h3)
  simp only [e]
  simp [e2]

/-- Witness for C8 (amended): `SIGTERM` during the wait, child exit code 7. -/
theorem exit_after_recorded_signal_witness :
    (main defaultConfig
      { quietEnv 0 with sigsWhileWaiting := [SIGTERM], waitpid := some ⟨false, 0, true, 7⟩ }
      ["prog.awk".toList]).status = 128 + SIGTERM :=
  exit_after_recorded_signal defaultConfig
    { quietEnv 0 with sigsWhileWaiting := [SIGTERM], waitpid := some ⟨false, 0, true, 7⟩ }
    ["prog.awk".toList] 4242 SIGTERM rfl rfl rfl (by decide) (by intro m hm; cases hm)

theorem shebangSplit_token (t : CStr) (ht : ' ' ∉ t) (acc : List CStr) (tok rest : CStr) :
    shebangSplit acc tok (t ++ ' ' :: rest) = shebangSplit (acc ++ [tok ++ t]) [] rest := by
  induction t generalizing tok with
  | nil => simp [shebangSplit]
  | cons c cs ih =>
    have hc : c ≠ ' ' := fun h => ht (by simp [h])
    have hcs : ' ' ∉ cs := fun h => ht (by simp [h])
    rw [List.cons_append, shebangSplit, if_neg hc, ih hcs]
    simp

theorem shebangSplit_last (t : CStr) (ht : ' ' ∉ t) (acc : List CStr) (tok : CStr) :
    shebangSplit acc tok t = if tok ++ t ≠ [] then acc ++ [tok ++ t] else acc := by
  induction t generalizing tok with
  | nil => simp [shebangSplit]
  | cons c cs ih =>
    have hc : c ≠ ' ' := fun h => ht (by simp [h])
    have hcs : ' ' ∉ cs := fun h => ht (by simp [h])
    rw [shebangSplit, if_neg hc, ih hcs]
    simp

theorem intercalate_cons_cons (t u : CStr) (ts : List CStr) :
    List.intercalate [' '] (t :: u :: ts) = t ++ ' ' :: List.intercalate [' '] (u :: ts) := by
  simp [List.intercalate, List.intersperse]

theorem shebangSplit_intercalate (toks : List CStr) (hne : toks ≠ [])
    (hsp : ∀ t ∈ toks, ' ' ∉ t) (hlast : toks.getLast? ≠ some []) (acc : List CStr) :
    shebangSplit acc [] (List.intercalate [' '] toks) = acc ++ toks := by
  induction toks generalizing acc with
  | nil => exact absurd rfl hne
  | cons t ts ih =>
    cases ts with
    | nil =>
      have ht : t ≠ [] := fun h => hlast (by simp [h])
      have e : List.intercalate [' '] [t] = t := by simp [List.intercalate, List.intersperse]
      rw [e, shebangSplit_last t (hsp t (by simp))]
      simp [ht]
    | cons u us =>
      rw [intercalate_cons_cons, shebangSplit_token t (hsp t (by simp))]
      rw [ih (by simp) (fun x hx => hsp x (by simp [hx]))
        (by simpa [List.getLast?_cons_cons] using hlast)]
      simp

/-- C9: for `k ≥ 2` space-free tokens, the last non-empty and the first
starting with `-`, joined by single spaces into the first argument and
followed by an argument that does not start with `-`: shebang expansion is
triggered and yields exactly those tokens, the arguments after the first
being set aside, and the option loop is run on those tokens. When the first
argument has no space or does not start with `-`, or the next argument
starts with `-`, or there is at most one argument, nothing is expanded and
the original arguments are parsed. -/
theorem shebang_expansion (toks : List CStr) (next : CStr) (more : List CStr)
    (hk : 2 ≤ toks.length) (hsp : ∀ t ∈ toks, ' ' ∉ t) (hlast : toks.getLast? ≠ some [])
    (hfirst : toks.head?.bind List.head? = some '-') (hnext : next.head? ≠ some '-') :
    shebangExpand (List.intercalate [' '] toks :: next :: more) =
        ⟨more.length + 1, next :: more, toks⟩ ∧
    (∀ (cfg : Config) (env : Env) (st : State), env.getcwd = true →
      parseArgs cfg env (List.intercalate [' '] toks :: next :: more) st =
        match parseOptions (more.length + 1) toks (enterOptions cfg st) with
        | .error o => .error o
        | .ok (st1, left) =>
          if left ≠ [] then .error (die 1 st1)
          else .ok ({ st1 with script := st1.script.map env.afterFree }, next :: more)) ∧
    (∀ a0 a1 rest, (' ' ∉ a0 ∨ a0.head? ≠ some '-' ∨ a1.head? = some '-') →
      shebangExpand (a0 :: a1 :: rest) = ⟨0, [], a0 :: a1 :: rest⟩) ∧
    (∀ args : List CStr, args.length ≤ 1 → shebangExpand args = ⟨0, [], args⟩) := by
  have hexp : shebangExpand (List.intercalate [' '] toks :: next :: more) =
      ⟨more.length + 1, next :: more, toks⟩ := by
    match toks, hk, hsp, hlast, hfirst with
    | t :: u :: ts, _, hsp, hlast, hfirst =>
      have hsplit := shebangSplit_intercalate (t :: u :: ts) (by simp) hsp hlast []
      have hd : (List.intercalate [' '] (t :: u :: ts)).head? = some '-' := by
        rw [intercalate_cons_cons]
        cases t with
        | nil => simp at hfirst
        | cons c cs => simpa using hfirst
      have hmem : ' ' ∈ List.intercalate [' '] (t :: u :: ts) := by
        rw [intercalate_cons_cons]
        simp
      unfold shebangExpand
      simp only []
      rw [if_pos ⟨hd, hnext, hmem⟩, hsplit]
      simp
  refine ⟨hexp, ?_, ?_, ?_⟩
  · intro cfg env st hcwd
    unfold parseArgs
    simp only [hcwd, Bool.true_eq_false, if_false, hexp]
    cases parseOptions (more.length + 1) toks (enterOptions cfg st) with
    | error o => rfl
    | ok p =>
      obtain ⟨st1, left⟩ := p
      by_cases hl : left = [] <;> simp [hl]
  · intro a0 a1 rest h
    unfold shebangExpand
    simp only []
    rw [if_neg]
    rintro ⟨h1, h2, h3⟩
    rcases h with h | h | h
    · exact h h3
    · exact h h1
    · exact h2 h
  · intro args h
    match args, h with
    | [], _ => rfl
    | [a], _ => rfl

/-- Witness for C9: `-f lib.awk -v x=1` followed by `prog.awk` expands into
four tokens. -/
theorem shebang_expansion_witness :
    shebangExpand ["-f lib.awk -v x=1".toList, "prog.awk".toList] =
      ⟨1, ["prog.awk".toList],
        ["-f".toList, "lib.awk".toList, "-v".toList, "x=1".toList]⟩ :=
  (shebang_expansion ["-f".toList, "lib.awk".toList, "-v".toList, "x=1".toList]
    "prog.awk".toList [] (by decide) (by decide) (by decide) rfl (by decide)).1

/-- C10, the code at the failing input `-v  x=1` (two spaces) followed by
`prog.awk`: the expansion contains an empty token, which `-v` then takes as
its value, and the run ends with status 1 on the leftover token `x=1`. -/
theorem shebang_empty_token :
    shebangExpand ["-v  x=1".toList, "prog.awk".toList] =
      ⟨1, ["prog.awk".toList], ["-v".toList, [], "x=1".toList]⟩ ∧
    [] ∈ (shebangExpand ["-v  x=1".toList, "prog.awk".toList]).args ∧
    (main defaultConfig (quietEnv 0) ["-v  x=1".toList, "prog.awk".toList]).status = 1 :=
  ⟨rfl, by decide, rfl⟩

theorem optionPrefix_cons (tok : CStr) (rest : List CStr) :
    Spec.optionPrefix (tok :: rest) =
      match Spec.classify tok with
      | .option o => (Spec.optionPrefix rest).map (fun os => o :: os)
      | .separated mk =>
        match rest with
        | [] => none
        | x :: rest1 => (Spec.optionPrefix rest1).map (fun os => mk x :: os)
      | _ => none := by
  cases rest <;> simp only [Spec.optionPrefix]

theorem script_isSome_cons (o : Spec.Opt) (opts : List Spec.Opt) :
    (Spec.script (o :: opts)).isSome = (o.source?.isSome || (Spec.script opts).isSome) := by
  rw [script_cons]
  cases Spec.script opts <;> cases o.source? <;> rfl

theorem scan_append (sh : Bool) : ∀ (k : Nat) (pre : List CStr) (opts : List Spec.Opt)
    (tail : List CStr) (b : Bool), pre.length ≤ k → Spec.optionPrefix pre = some opts →
    Spec.scan sh b (pre ++ tail) =
      (Spec.scan sh (b || (Spec.script opts).isSome) tail).map
        (fun r => { r with opts := opts ++ r.opts }) := by
  intro k
  induction k with
  | zero =>
    intro pre opts tail b hk h
    have : pre = [] := by simpa using hk
    subst this
    simp [Spec.optionPrefix] at h
    subst h
    cases hsc : Spec.scan sh b tail <;> simp [Spec.script, Except.map, hsc]
  | succ k ih =>
    intro pre opts tail b hk h
    cases pre with
    | nil =>
      simp [Spec.optionPrefix] at h
      subst h
      cases hsc : Spec.scan sh b tail <;> simp [Spec.script, Except.map, hsc]
    | cons tok rest =>
      rw [optionPrefix_cons] at h
      rw [List.cons_append, Spec.scan.eq_2]
      cases hc : Spec.classify tok with
      | option o =>
        simp only [hc] at h ⊢
        cases hr : Spec.optionPrefix rest with
        | none => simp [hr] at h
        | some os =>
          simp [hr] at h
          subst h
          rw [ih rest os tail _ (by simpa using hk) hr, script_isSome_cons]
          simp only [Bool.or_assoc]
          cases Spec.scan sh (b || (o.source?.isSome || (Spec.script os).isSome)) tail <;>
            simp [Except.map, Spec.Parsed.cons]
      | separated mk =>
        simp only [hc] at h ⊢
        cases rest with
        | nil => simp at h
        | cons x rest1 =>
          simp only [List.cons_append] at h ⊢
          cases hr : Spec.optionPrefix rest1 with
          | none => simp [hr] at h
          | some os =>
            simp [hr] at h
            subst h
            rw [ih rest1 os tail _ (by simp at hk; omega) hr, script_isSome_cons]
            simp only [Bool.or_assoc]
            cases Spec.scan sh (b || ((mk x).source?.isSome || (Spec.script os).isSome)) tail <;>
              simp [Except.map, Spec.Parsed.cons]
      | positional => simp [hc] at h
      | help => simp [hc] at h
      | version => simp [hc] at h
      | exec => simp [hc] at h
      | terminator => simp [hc] at h
      | unknownShort => simp [hc] at h
      | bareDash => simp [hc] at h

theorem main_of_ne_nil (cfg : Config) (env : Env) (args : List CStr) (hne : args ≠ []) :
    main cfg env args =
      match buildArgv cfg env args (deliver env.sigsBeforeFork {}) with
      | .error o => o
      | .ok st => supervise cfg env st := by
  cases args with
  | nil => exact absurd rfl hne
  | cons a rest => rfl

theorem main_parse_error (cfg : Config) (env : Env) (args : List CStr) (f : Spec.Fatal)
    (hne : args ≠ []) (hcwd : env.getcwd = true) (hp : Spec.parse args = .error f) :
    main cfg env args = fatal f (deliver env.sigsBeforeFork {}) := by
  rw [main_of_ne_nil cfg env args hne]
  unfold buildArgv
  rw [parseArgs_eq cfg env args _ hcwd (by rw [deliver_before_fork _ _ rfl]), hp]

theorem parse_of_scan_error (args : List CStr) (f : Spec.Fatal)
    (h : Spec.scan (decide ((shebangExpand args).argc ≠ 0)) false (shebangExpand args).args =
      .error f) :
    Spec.parse args = .error f := by
  unfold Spec.parse
  dsimp only
  rw [h]

theorem shebangExpand_args_ne_nil (args : List CStr) (h : (shebangExpand args).args ≠ []) :
    args ≠ [] := by
  rintro rfl
  exact h rfl

/-- A fatal row of the option table met in option position ends `main` there. -/
theorem main_fatal_in_option_position (cfg : Config) (env : Env) (args pre : List CStr)
    (opts : List Spec.Opt) (tok : CStr) (post : List CStr) (f : Spec.Fatal)
    (hcwd : env.getcwd = true)
    (hL : (shebangExpand args).args = pre ++ tok :: post)
    (hpre : Spec.optionPrefix pre = some opts)
    (hf : Spec.scan (decide ((shebangExpand args).argc ≠ 0)) (Spec.script opts).isSome
      (tok :: post) = .error f) :
    main cfg env args = fatal f (deliver env.sigsBeforeFork {}) := by
  apply main_parse_error cfg env args f
    (shebangExpand_args_ne_nil args (by rw [hL]; simp)) hcwd
  apply parse_of_scan_error
  rw [hL, scan_append _ pre.length pre opts (tok :: post) false (Nat.le_refl _) hpre]
  simp only [Bool.false_or]
  rw [hf]
  rfl

/-- What a fatal usage error leaves behind when no signal was recorded: the
requested status, the usage or version text for `--help`, `--version`, no
child and no temporary file. -/
theorem fatal_quiet (f : Spec.Fatal) :
    fatal f (deliver [] {}) =
      ⟨f.status, { stdout := match f with
        | .help => [Printed.usage]
        | .version => [Printed.version]
        | _ => [] }⟩ := by
  cases f <;> rfl

theorem scan_needsArgument (sh b : Bool) (tok : CStr) (h : tok ∈ needsArgument) :
    Spec.scan sh b [tok] = .error .missingArgument := by
  simp only [needsArgument, List.mem_cons, List.mem_singleton, List.not_mem_nil, or_false] at h
  rcases h with rfl | rfl | rfl | rfl | rfl | rfl | rfl <;> rfl

theorem scan_exec_last (b : Bool) :
    Spec.scan false b ["--exec".toList] = .error .missingArgument := rfl

/-- C14: when the list being parsed (the arguments, or the shebang-derived
tokens) is a list of complete options followed by one last token that is
`-F`, `-v`, `--assign`, `-f`, `--file`, `-e` or `--source`, or `--exec`
outside shebang mode, and `getcwd` succeeds and no signal is recorded,
`main` exits with status 39 and there is no child and no temporary file. -/
theorem missing_argument (cfg : Config) (env : Env) (args pre : List CStr)
    (opts : List Spec.Opt) (tok : CStr)
    (hcwd : env.getcwd = true) (h0 : env.sigsBeforeFork = [])
    (hL : (shebangExpand args).args = pre ++ [tok])
    (hpre : Spec.optionPrefix pre = some opts)
    (htok : tok ∈ needsArgument ∨ (tok = "--exec".toList ∧ (shebangExpand args).argc = 0)) :
    (main cfg env args).status = 39 ∧ (main cfg env args).world.child = none ∧
      (main cfg env args).world.created = 0 ∧ (main cfg env args).world.tempFile = none := by
  have hm : main cfg env args = ⟨39, {}⟩ := by
    rw [main_fatal_in_option_position cfg env args pre opts tok [] .missingArgument hcwd hL hpre,
      h0, fatal_quiet]
    · rfl
    · rcases htok with h | ⟨h, hz⟩
      · exact scan_needsArgument _ _ tok h
      · rw [h, hz]
        exact scan_exec_last _
  rw [hm]
  exact ⟨rfl, rfl, rfl, rfl⟩

/-- Witness for C14: the sole argument `-v`. -/
theorem missing_argument_witness :
    (main defaultConfig (quietEnv 0) ["-v".toList]).status = 39 ∧
      (main defaultConfig (quietEnv 0) ["-v".toList]).world.child = none ∧
      (main defaultConfig (quietEnv 0) ["-v".toList]).world.created = 0 ∧
      (main defaultConfig (quietEnv 0) ["-v".toList]).world.tempFile = none :=
  missing_argument defaultConfig (quietEnv 0) ["-v".toList] [] [] "-v".toList rfl rfl rfl rfl
    (Or.inl (by decide))

/-- C18: when the list being parsed (the arguments, or the shebang-derived
tokens) is a list of complete options followed by `--help` or `--version`,
and `getcwd` succeeds and no signal is recorded, `main` prints the usage
text, respectively the version, exits with status 0 and there is no child
and no temporary file. -/
theorem help_and_version (cfg : Config) (env : Env) (args pre : List CStr)
    (opts : List Spec.Opt) (tok : CStr) (post : List CStr)
    (hcwd : env.getcwd = true) (h0 : env.sigsBeforeFork = [])
    (hL : (shebangExpand args).args = pre ++ tok :: post)
    (hpre : Spec.optionPrefix pre = some opts)
    (htok : tok = "--help".toList ∨ tok = "--version".toList) :
    (main cfg env args).status = 0 ∧ (main cfg env args).world.child = none ∧
      (main cfg env args).world.created = 0 ∧ (main cfg env args).world.tempFile = none ∧
      (main cfg env args).world.stdout =
        [if tok = "--help".toList then Printed.usage else Printed.version] := by
  rcases htok with h | h
  · subst h
    rw [main_fatal_in_option_position cfg env args pre opts _ post .help hcwd hL hpre rfl,
      h0, fatal_quiet]
    exact ⟨rfl, rfl, rfl, rfl, rfl⟩
  · subst h
    rw [main_fatal_in_option_position cfg env args pre opts _ post .version hcwd hL hpre rfl,
      h0, fatal_quiet]
    exact ⟨rfl, rfl, rfl, rfl, rfl⟩

/-- Witness for C18: `-f a.awk -e x --version p`. -/
theorem help_and_version_witness :
    (main defaultConfig (quietEnv 1)
        ["-f".toList, "a.awk".toList, "-e".toList, "x".toList, "--version".toList,
          "p".toList]).status = 0 ∧
      (main defaultConfig (quietEnv 1)
        ["-f".toList, "a.awk".toList, "-e".toList, "x".toList, "--version".toList,
          "p".toList]).world.child = none ∧
      (main defaultConfig (quietEnv 1)
        ["-f".toList, "a.awk".toList, "-e".toList, "x".toList, "--version".toList,
          "p".toList]).world.created = 0 ∧
      (main defaultConfig (quietEnv 1)
        ["-f".toList, "a.awk".toList, "-e".toList, "x".toList, "--version".toList,
          "p".toList]).world.tempFile = none ∧
      (main defaultConfig (quietEnv 1)
        ["-f".toList, "a.awk".toList, "-e".toList, "x".toList, "--version".toList,
          "p".toList]).world.stdout = [Printed.version] :=
  help_and_version defaultConfig (quietEnv 1)
    ["-f".toList, "a.awk".toList, "-e".toList, "x".toList, "--version".toList, "p".toList]
    ["-f".toList, "a.awk".toList, "-e".toList, "x".toList]
    [.file "a.awk".toList, .source "x".toList] "--version".toList ["p".toList]
    rfl rfl rfl rfl (Or.inr rfl)

theorem classify_unknownShort (c : Char) (cs : CStr)
    (hc : c ∉ ['F', 'v', 'f', 'e', '-']) :
    Spec.classify ('-' :: c :: cs) = .unknownShort := by
  simp only [List.mem_cons, List.mem_singleton, List.not_mem_nil, or_false, not_or] at hc
  obtain ⟨h1, h2, h3, h4, h5⟩ := hc
  simp [Spec.classify, h1, h2, h3, h4, h5]

theorem scan_unknownShort (sh b : Bool) (c : Char) (cs : CStr) (post : List CStr)
    (hc : c ∉ ['F', 'v', 'f', 'e', '-']) :
    Spec.scan sh b (('-' :: c :: cs) :: post) = .error .unknownOption := by
  rw [Spec.scan.eq_2, classify_unknownShort c cs hc]

theorem shebangExpand_args_of_argc (args : List CStr) (h : (shebangExpand args).argc = 0) :
    (shebangExpand args).args = args := by
  unfold shebangExpand at h ⊢
  split
  · rename_i a0 a1 more
    split_ifs with hc
    · simp [hc] at h
    · rfl
  · rfl

theorem parse_of_scan_ok (args : List CStr) (r : Spec.Parsed)
    (hsb : (shebangExpand args).argc = 0) (h : Spec.scan false false args = .ok r) :
    Spec.parse args = .ok r := by
  unfold Spec.parse
  dsimp only
  rw [shebangExpand_args_of_argc args hsb, hsb]
  simp [h]

theorem scan_bareDash (sh b : Bool) (post : List CStr) :
    Spec.scan sh b ("-".toList :: post) = .ok ⟨[], false, "-".toList :: post⟩ := rfl

/-- C16, amended: when `getcwd` succeeds and no signal is recorded: a token
`-c...` met in option position (after complete options, in the arguments or
in the shebang-derived tokens), `c` being none of `F`, `v`, `f`, `e`, `-`,
makes `main` exit with status 1 without a child; outside shebang expansion
a bare `-` in option position is no error: parsing succeeds and leaves `-`
as the first positional argument; among shebang-derived tokens a bare `-`
ends the option loop too and, being left over, makes `main` exit with
status 1 without a child. -/
theorem short_options (cfg : Config) (env : Env)
    (hcwd : env.getcwd = true) (h0 : env.sigsBeforeFork = []) :
    (∀ (args pre : List CStr) (opts : List Spec.Opt) (c : Char) (cs : CStr)
        (post : List CStr),
      (shebangExpand args).args = pre ++ ('-' :: c :: cs) :: post →
      Spec.optionPrefix pre = some opts → c ∉ ['F', 'v', 'f', 'e', '-'] →
      (main cfg env args).status = 1 ∧ (main cfg env args).world.child = none) ∧
    (∀ (args pre : List CStr) (opts : List Spec.Opt) (post : List CStr),
      (shebangExpand args).argc = 0 → args = pre ++ "-".toList :: post →
      Spec.optionPrefix pre = some opts →
      Spec.parse args = .ok ⟨opts, false, "-".toList :: post⟩ ∧
      ∃ st, parseArgs cfg env args (deliver env.sigsBeforeFork {}) =
        .ok (st, "-".toList :: post)) ∧
    (∀ (args pre : List CStr) (opts : List Spec.Opt) (post : List CStr),
      (shebangExpand args).argc ≠ 0 → (shebangExpand args).args = pre ++ "-".toList :: post →
      Spec.optionPrefix pre = some opts →
      (main cfg env args).status = 1 ∧ (main cfg env args).world.child = none) := by
  refine ⟨?_, ?_, ?_⟩
  · intro args pre opts c cs post hL hpre hc
    rw [main_fatal_in_option_position cfg env args pre opts _ post .unknownOption hcwd hL hpre
      (scan_unknownShort _ _ c cs post hc), h0, fatal_quiet]
    exact ⟨rfl, rfl⟩
  · intro args pre opts post hsb hargs hpre
    have hp : Spec.parse args = .ok ⟨opts, false, "-".toList :: post⟩ := by
      apply parse_of_scan_ok args _ hsb
      rw [hargs, scan_append _ pre.length pre opts _ false (Nat.le_refl _) hpre, scan_bareDash]
      simp [Except.map]
    refine ⟨hp, afterParse cfg env args ⟨opts, false, "-".toList :: post⟩
      (deliver env.sigsBeforeFork {}), ?_⟩
    rw [parseArgs_eq cfg env args _ hcwd (by rw [deliver_before_fork _ _ rfl]), hp]
  · intro args pre opts post hsb hL hpre
    have hne := shebangExpand_args_ne_nil args (by rw [hL]; simp)
    have hp : Spec.parse args = .error .shebangLeftover := by
      unfold Spec.parse
      dsimp only
      rw [hL, scan_append _ pre.length pre opts _ false (Nat.le_refl _) hpre, scan_bareDash]
      simp [Except.map, hsb]
    rw [main_parse_error cfg env args _ hne hcwd hp, h0, fatal_quiet]
    exact ⟨rfl, rfl⟩

/-- Counterexample to C16 as stated: in the shebang line `-v x=1 -` the
bare `-` is a fatal error: the run ends with status 1 and no child. -/
theorem bare_dash_counterexample :
    shebangExpand ["-v x=1 -".toList, "prog.awk".toList] =
      ⟨1, ["prog.awk".toList], ["-v".toList, "x=1".toList, "-".toList]⟩ ∧
    main defaultConfig (quietEnv 0) ["-v x=1 -".toList, "prog.awk".toList] = ⟨1, {}⟩ :=
  ⟨rfl, rfl⟩

/-- Witness for C16 (amended): `--stdin -xF p`, and `-v x=1 - in.txt`. -/
theorem short_options_witness :
    ((main defaultConfig (quietEnv 0) ["--stdin".toList, "-xF".toList, "p".toList]).status = 1 ∧
      (main defaultConfig (quietEnv 0)
        ["--stdin".toList, "-xF".toList, "p".toList]).world.child = none) ∧
    Spec.parse ["-v".toList, "x=1".toList, "-".toList, "in.txt".toList] =
      .ok ⟨[.assign "x=1".toList], false, ["-".toList, "in.txt".toList]⟩ :=
  ⟨(short_options defaultConfig (quietEnv 0) rfl rfl).1
      ["--stdin".toList, "-xF".toList, "p".toList] ["--stdin".toList] [.stdin] 'x' "F".toList
      ["p".toList] rfl rfl (by decide),
   ((short_options defaultConfig (quietEnv 0) rfl rfl).2.1
      ["-v".toList, "x=1".toList, "-".toList, "in.txt".toList] ["-v".toList, "x=1".toList]
      [.assign "x=1".toList] ["in.txt".toList] rfl rfl rfl).1⟩

/-- The three ways `finishArgv` completes the argument vector. -/
theorem finishArgv_cases (cfg : Config) (env : Env) (argv : List CStr) (st st1 : State)
    (toks : List CStr) (hq : st.new_argv = none :: toks.map some)
    (h : finishArgv cfg env argv st = .ok st1) :
    (st.script = none ∧ ∃ p A, argv = p :: A ∧
      st1.new_argv = (p :: toks
        ++ (if st.execing then ["--exec".toList, p] else ["-f".toList, p, "--".toList])
        ++ A ++ (if st.add_stdin then ["/dev/stdin".toList] else [])).map some ++ [none]) ∨
    (∃ s, st.script = some s ∧ st.files = false ∧
      st1.new_argv = (cfg.AWK :: toks ++ ["--".toList, s]
        ++ argv ++ (if st.add_stdin then ["/dev/stdin".toList] else [])).map some ++ [none]) ∨
    (∃ s path, st.script = some s ∧ st.files = true ∧ env.mkstemp = some path ∧
      st1.world.tempFile = some (path, s) ∧
      st1.new_argv = (cfg.AWK :: toks ++ ["-f".toList, path]
        ++ (if st.execing then [] else ["--".toList])
        ++ argv ++ (if st.add_stdin then ["/dev/stdin".toList] else [])).map some ++ [none]) := by
  by_cases hdup : env.xstrdup = true
  · cases hs : st.script with
    | none =>
      cases argv with
      | nil => simp [finishArgv, hs] at h
      | cons p A =>
        rw [finishArgv_file cfg env p A st hs hdup] at h
        injection h with h
        subst h
        refine Or.inl ⟨rfl, p, A, rfl, ?_⟩
        cases st.execing <;> cases st.add_stdin <;> simp [hq]
    | some s =>
      cases hf : st.files with
      | false =>
        rw [finishArgv_inline cfg env s argv st hs hf hdup] at h
        injection h with h
        subst h
        refine Or.inr (Or.inl ⟨s, rfl, rfl, ?_⟩)
        cases st.add_stdin <;> simp [hq]
      | true =>
        cases hmk : env.mkstemp with
        | none => simp [finishArgv, hs, add_buffer, hf, hmk] at h
        | some path =>
          by_cases hwr : env.write = some s.length
          · cases hcl : env.close with
            | false => simp [finishArgv, hs, add_buffer, hf, hmk, hwr, hcl] at h
            | true =>
              rw [finishArgv_tempfile cfg env s path argv st hs hf hmk hwr hcl hdup] at h
              injection h with h
              subst h
              refine Or.inr (Or.inr ⟨s, path, rfl, rfl, rfl, rfl, ?_⟩)
              cases st.execing <;> cases st.add_stdin <;> simp [hq]
          · simp [finishArgv, hs, add_buffer, hf, hmk, hwr] at h
  · have hd : env.xstrdup = false := by simpa using hdup
    unfold finishArgv at h
    simp only [hd, if_true] at h
    split at h <;> simp at h

/-- The finished argument vector in terms of the parsed options. -/
theorem finishedArgv_cases (cfg : Config) (env : Env) (args : List CStr) (r : Spec.Parsed)
    (v : List (Option CStr)) (hparse : Spec.parse args = .ok r)
    (hv : finishedArgv cfg env args = some v) :
    (Spec.script r.opts = none ∧ ∃ p A, r.rest = p :: A ∧
      v = (p :: (cfg.AWK2.toList ++ Spec.translate r.opts)
        ++ (if r.exec then ["--exec".toList, p] else ["-f".toList, p, "--".toList])
        ++ A ++ (if Spec.hasStdin r.opts then ["/dev/stdin".toList] else [])).map some
        ++ [none]) ∨
    (∃ s, Spec.script r.opts = some s ∧ Spec.hasFile r.opts = false ∧
      v = (cfg.AWK :: (cfg.AWK2.toList ++ Spec.translate r.opts)
        ++ ["--".toList, scriptRead env args s]
        ++ r.rest ++ (if Spec.hasStdin r.opts then ["/dev/stdin".toList] else [])).map some
        ++ [none]) ∨
    (∃ s path, Spec.script r.opts = some s ∧ Spec.hasFile r.opts = true ∧
      env.mkstemp = some path ∧
      v = (cfg.AWK :: (cfg.AWK2.toList ++ Spec.translate r.opts) ++ ["-f".toList, path]
        ++ (if r.exec then [] else ["--".toList])
        ++ r.rest ++ (if Spec.hasStdin r.opts then ["/dev/stdin".toList] else [])).map some
        ++ [none]) := by
  have hcwd : env.getcwd = true := by
    cases hc : env.getcwd with
    | true => rfl
    | false => simp [finishedArgv, buildArgv, parseArgs, hc] at hv
  unfold finishedArgv at hv
  rw [buildArgv_eq cfg env args r hcwd hparse] at hv
  cases hfin : finishArgv cfg env r.rest
      (afterParse cfg env args r (deliver env.sigsBeforeFork {})) with
  | error o =>
    rw [hfin] at hv
    cases hv
  | ok st1 =>
    rw [hfin] at hv
    injection hv with hv
    subst hv
    have hsc : (afterParse cfg env args r (deliver env.sigsBeforeFork {})).script =
        (Spec.script r.opts).map (scriptRead env args) := by
      rw [afterParse_start]
      unfold scriptRead
      by_cases hb : (shebangExpand args).argc ≠ 0 <;> cases Spec.script r.opts <;> simp [hb]
    rcases finishArgv_cases cfg env r.rest _ st1 _ (by rw [afterParse_start]) hfin with
      ⟨hs, p, A, hr, hq⟩ | ⟨s, hs, hf, hq⟩ | ⟨s, path, hs, hf, hmk, _, hq⟩
    · rw [hsc] at hs
      refine Or.inl ⟨by simpa using hs, p, A, hr, ?_⟩
      rw [hq]
      simp only [afterParse_start]
    · rw [hsc] at hs
      cases hs0 : Spec.script r.opts with
      | none => simp [hs0] at hs
      | some s0 =>
        simp [hs0] at hs
        subst hs
        refine Or.inr (Or.inl ⟨s0, rfl, ?_, ?_⟩)
        · rw [afterParse_start] at hf
          exact hf
        · rw [hq]
          simp only [afterParse_start]
    · rw [hsc] at hs
      cases hs0 : Spec.script r.opts with
      | none => simp [hs0] at hs
      | some s0 =>
        refine Or.inr (Or.inr ⟨s0, path, rfl, ?_, hmk, ?_⟩)
        · rw [afterParse_start] at hf
          exact hf
        · rw [hq]
          simp only [afterParse_start]

theorem die_child (s : Nat) (st : State) : (die s st).world.child = st.world.child := by
  unfold die unlink
  cases st.temp_fn_created <;> cases h : st.world.tempFile <;> simp <;> split <;> simp <;>
    split <;> simp

theorem supervise_child (cfg : Config) (env : Env) (st : State) (pid : Nat)
    (hf : env.fork = some pid) :
    (supervise cfg env st).world.child = some (cfg.AWK, st.new_argv) := by
  unfold supervise
  simp only [hf]
  split_ifs <;>
  · rw [die_child, (deliver_fields _ _).2.2.2.2.2.1]
    simp only []
    rw [(deliver_fields _ _).2.2.2.2.2.1]

/-- Counterexample to C13 as stated: for the sole argument `prog.awk`
element 0 of the finished argument vector is `prog.awk`, not the
interpreter path. -/
theorem slot_zero_counterexample :
    finishedArgv defaultConfig (quietEnv 0) ["prog.awk".toList] =
      some [some "prog.awk".toList, some "-f".toList, some "prog.awk".toList,
        some "--".toList, none] ∧
    (some "prog.awk".toList : Option CStr) ≠ some defaultConfig.AWK :=
  ⟨rfl, by decide⟩

/-- C13, amended: for arguments that parse, element 0 of a finished
argument vector is the interpreter path when an inline script is the program
source, and the path of the program file when the program source is a bare
program file; in both cases the file passed to `execvp` is the interpreter
path. -/
theorem slot_zero (cfg : Config) (env : Env) (args : List CStr) (r : Spec.Parsed)
    (v : List (Option CStr)) (hparse : Spec.parse args = .ok r)
    (hv : finishedArgv cfg env args = some v) :
    (Spec.script r.opts ≠ none → v.head? = some (some cfg.AWK)) ∧
    (Spec.script r.opts = none → ∃ p A, r.rest = p :: A ∧ v.head? = some (some p)) ∧
    (∀ pid, env.fork = some pid → (main cfg env args).world.child = some (cfg.AWK, v)) := by
  refine ⟨?_, ?_, ?_⟩
  · intro hs
    rcases finishedArgv_cases cfg env args r v hparse hv with
      ⟨h, _⟩ | ⟨s, _, _, hq⟩ | ⟨s, path, _, _, _, hq⟩
    · exact absurd h hs
    · rw [hq]; rfl
    · rw [hq]; rfl
  · intro hs
    rcases finishedArgv_cases cfg env args r v hparse hv with
      ⟨_, p, A, hr, hq⟩ | ⟨s, h, _⟩ | ⟨s, path, h, _⟩
    · exact ⟨p, A, hr, by rw [hq]; rfl⟩
    · rw [hs] at h; cases h
    · rw [hs] at h; cases h
  · intro pid hf
    unfold finishedArgv at hv
    cases hb : buildArgv cfg env args (deliver env.sigsBeforeFork {}) with
    | error o => rw [hb] at hv; cases hv
    | ok st =>
      rw [hb] at hv
      injection hv with hv
      rw [main_eq cfg env args st hb, supervise_child cfg env st pid hf, hv]

/-- Witness for C13 (amended): `-e x in.txt` and `prog.awk in.txt`. -/
theorem slot_zero_witness :
    [some "/usr/local/bin/gawk".toList, some "--".toList, some "x".toList,
      some "in.txt".toList, none].head? = some (some defaultConfig.AWK) ∧
    (∃ p A, ["prog.awk".toList, "in.txt".toList] = p :: A ∧
      [some "prog.awk".toList, some "-f".toList, some "prog.awk".toList, some "--".toList,
        some "in.txt".toList, none].head? = some (some p)) :=
  ⟨(slot_zero defaultConfig (quietEnv 0) ["-e".toList, "x".toList, "in.txt".toList]
      ⟨[.source "x".toList], false, ["in.txt".toList]⟩ _ rfl rfl).1 (by decide),
   (slot_zero defaultConfig (quietEnv 0) ["prog.awk".toList, "in.txt".toList]
      ⟨[], false, ["prog.awk".toList, "in.txt".toList]⟩ _ rfl rfl).2.1 rfl⟩

/-- C15, the code at the failing input `-e x --exec p` (no shebang
expansion): `--exec` after the inline script is accepted, the child is
created with the queue `--`, `x`, `p` and the run ends with the child's
status. -/
theorem exec_after_script_accepted :
    main defaultConfig (quietEnv 0) ["-e".toList, "x".toList, "--exec".toList, "p".toList] =
      ⟨0, { child := some ("/usr/local/bin/gawk".toList,
        [some "/usr/local/bin/gawk".toList, some "--".toList, some "x".toList, some "p".toList,
          none]) }⟩ :=
  rfl

/-- In shebang mode `--exec` met after an inline script was set is fatal. -/
theorem exec_conflict_in_shebang (cfg : Config) (env : Env) (args pre : List CStr)
    (opts : List Spec.Opt) (post : List CStr)
    (hcwd : env.getcwd = true) (h0 : env.sigsBeforeFork = [])
    (hsb : (shebangExpand args).argc ≠ 0)
    (hL : (shebangExpand args).args = pre ++ "--exec".toList :: post)
    (hpre : Spec.optionPrefix pre = some opts) (hs : Spec.script opts ≠ none) :
    main cfg env args = ⟨39, {}⟩ := by
  have hsome : (Spec.script opts).isSome = true := by
    cases h : Spec.script opts with
    | none => exact absurd h hs
    | some s => rfl
  rw [main_fatal_in_option_position cfg env args pre opts _ post .execConflict hcwd hL hpre,
    h0, fatal_quiet]
  · rfl
  · rw [hsome]
    simp only [hsb, ne_eq, not_false_eq_true, decide_True]
    rfl

/-- C17: when `getcwd` succeeds and no signal is recorded: with no
argument, and with arguments that parse to options without an inline script
and leave no positional argument, `main` prints the usage text, exits with
status 30 and creates no child; and when an inline script is set, every
finished argument vector has slot 0 (the interpreter), the option tokens,
the script registration (`--` and the script, or `-f` and the temporary
file) and then all positional arguments as arguments: none of them is
registered as the program file. -/
theorem missing_program (cfg : Config) (env : Env)
    (hcwd : env.getcwd = true) (h0 : env.sigsBeforeFork = []) :
    main cfg env [] = ⟨30, { stdout := [Printed.usage] }⟩ ∧
    (∀ (args : List CStr) (r : Spec.Parsed), Spec.parse args = .ok r → r.rest = [] →
      Spec.script r.opts = none →
      main cfg env args = ⟨30, { stdout := [Printed.usage] }⟩) ∧
    (∀ (args : List CStr) (r : Spec.Parsed) (s : CStr) (v : List (Option CStr)),
      Spec.parse args = .ok r → Spec.script r.opts = some s →
      finishedArgv cfg env args = some v →
      ∃ src, v = (cfg.AWK :: (cfg.AWK2.toList ++ Spec.translate r.opts) ++ src ++ r.rest
          ++ (if Spec.hasStdin r.opts then ["/dev/stdin".toList] else [])).map some ++ [none] ∧
        (src = ["--".toList, scriptRead env args s] ∨
          ∃ path, env.mkstemp = some path ∧
            src = ["-f".toList, path] ++ (if r.exec then [] else ["--".toList]))) := by
  refine ⟨rfl, ?_, ?_⟩
  · intro args r hp hr hs
    cases args with
    | nil => rfl
    | cons a rest =>
      rw [main_of_ne_nil cfg env _ (by simp), buildArgv_eq cfg env _ r hcwd hp, hr,
        afterParse_start, h0]
      simp [finishArgv, hs, die, usage]
  · intro args r s v hp hs hv
    rcases finishedArgv_cases cfg env args r v hp hv with
      ⟨h, _⟩ | ⟨s1, h, _, hq⟩ | ⟨s1, path, h, _, hmk, hq⟩
    · rw [hs] at h; cases h
    · rw [hs] at h
      injection h with h
      subst h
      exact ⟨_, hq, Or.inl rfl⟩
    · exact ⟨_, by rw [hq]; simp, Or.inr ⟨path, hmk, rfl⟩⟩

/-- Witness for C17: no argument, and `-F: --stdin`. -/
theorem missing_program_witness :
    main defaultConfig (quietEnv 0) [] = ⟨30, { stdout := [Printed.usage] }⟩ ∧
    main defaultConfig (quietEnv 0) ["-F:".toList, "--stdin".toList] =
      ⟨30, { stdout := [Printed.usage] }⟩ :=
  ⟨(missing_program defaultConfig (quietEnv 0) rfl rfl).1,
   (missing_program defaultConfig (quietEnv 0) rfl rfl).2.1 ["-F:".toList, "--stdin".toList]
      ⟨[.fieldSep ":".toList, .stdin], false, []⟩ rfl rfl rfl⟩

theorem shebangExpand_argv (args : List CStr) (h : (shebangExpand args).argc ≠ 0) :
    (shebangExpand args).argv = args.tail ∧ args.tail ≠ [] := by
  unfold shebangExpand at h ⊢
  split
  · rename_i a0 a1 more
    split_ifs with hc
    · simp
    · simp [hc] at h
  · simp at h

/-- C11: for arguments that trigger shebang expansion, when `getcwd`
succeeds, no signal is recorded and the option loop is left (by the table,
`Spec.scan`) with the tokens `r.rest` unconsumed: if some shebang-derived
token is left, `main` exits with status 1 and there is no child and no
temporary file; if none is left, parsing succeeds and the arguments that
followed the shebang argument (`args.tail`), in their order, supply the
program file and its arguments: with no inline script the first of them is
registered as the program file and the others follow as its arguments. -/
theorem shebang_leftover (cfg : Config) (env : Env) (args : List CStr) (r : Spec.Parsed)
    (hcwd : env.getcwd = true) (h0 : env.sigsBeforeFork = [])
    (hsb : (shebangExpand args).argc ≠ 0)
    (hscan : Spec.scan true false (shebangExpand args).args = .ok r) :
    (r.rest ≠ [] →
      (main cfg env args).status = 1 ∧ (main cfg env args).world.child = none ∧
        (main cfg env args).world.created = 0 ∧ (main cfg env args).world.tempFile = none) ∧
    (r.rest = [] →
      Spec.parse args = .ok { r with rest := args.tail } ∧
      (∃ st, parseArgs cfg env args (deliver env.sigsBeforeFork {}) = .ok (st, args.tail)) ∧
      (Spec.script r.opts = none → env.xstrdup = true →
        ∃ p A, args.tail = p :: A ∧
          finishedArgv cfg env args = some
            ((p :: (cfg.AWK2.toList ++ Spec.translate r.opts)
              ++ (if r.exec then ["--exec".toList, p] else ["-f".toList, p, "--".toList])
              ++ A ++ (if Spec.hasStdin r.opts then ["/dev/stdin".toList] else [])).map some
              ++ [none]))) := by
  have hdec : decide ((shebangExpand args).argc ≠ 0) = true := by simpa using hsb
  obtain ⟨hargv, htail⟩ := shebangExpand_argv args hsb
  have hne : args ≠ [] := by
    rintro rfl
    exact htail rfl
  constructor
  · intro hr
    have hp : Spec.parse args = .error .shebangLeftover := by
      unfold Spec.parse
      dsimp only
      rw [hdec, hscan]
      simp [hsb, hr]
    rw [main_parse_error cfg env args _ hne hcwd hp, h0, fatal_quiet]
    exact ⟨rfl, rfl, rfl, rfl⟩
  · intro hr
    have hp : Spec.parse args = .ok { r with rest := args.tail } := by
      unfold Spec.parse
      dsimp only
      rw [hdec, hscan]
      simp [hsb, hr, hargv]
    refine ⟨hp, ⟨afterParse cfg env args { r with rest := args.tail }
      (deliver env.sigsBeforeFork {}), ?_⟩, ?_⟩
    · rw [parseArgs_eq cfg env args _ hcwd (by rw [deliver_before_fork _ _ rfl]), hp]
    · intro hs hdup
      cases hT : args.tail with
      | nil => exact absurd hT htail
      | cons p A =>
        refine ⟨p, A, rfl, ?_⟩
        unfold finishedArgv
        rw [buildArgv_eq cfg env args _ hcwd hp]
        simp only [hT]
        rw [afterParse_start, finishArgv_file cfg env p A _ (by simp [hs]) hdup]
        cases r.exec <;> cases Spec.hasStdin r.opts <;> simp

/-- Witness for C11: the shebang line `-f lib.awk extra` leaves `extra`
over; `-f lib.awk -v x=1` followed by `prog.awk`, `in.txt` is consumed. -/
theorem shebang_leftover_witness :
    ((main defaultConfig (quietEnv 0)
        ["-f lib.awk extra".toList, "prog.awk".toList]).status = 1 ∧
      (main defaultConfig (quietEnv 0)
        ["-f lib.awk extra".toList, "prog.awk".toList]).world.child = none ∧
      (main defaultConfig (quietEnv 0)
        ["-f lib.awk extra".toList, "prog.awk".toList]).world.created = 0 ∧
      (main defaultConfig (quietEnv 0)
        ["-f lib.awk extra".toList, "prog.awk".toList]).world.tempFile = none) ∧
    Spec.parse ["-f lib.awk -v x=1".toList, "prog.awk".toList, "in.txt".toList] =
      .ok ⟨[.file "lib.awk".toList, .assign "x=1".toList], false,
        ["prog.awk".toList, "in.txt".toList]⟩ :=
  ⟨(shebang_leftover defaultConfig (quietEnv 0) ["-f lib.awk extra".toList, "prog.awk".toList]
      ⟨[.file "lib.awk".toList], false, ["extra".toList]⟩ rfl rfl (by decide) rfl).1
      (by decide),
   ((shebang_leftover defaultConfig (quietEnv 0)
      ["-f lib.awk -v x=1".toList, "prog.awk".toList, "in.txt".toList]
      ⟨[.file "lib.awk".toList, .assign "x=1".toList], false, []⟩ rfl rfl (by decide) rfl).2
      rfl).1⟩

/-- Counterexample to C19 as stated: `-f a.awk -e BEGIN in.txt`, the child
forked, `SIGINT` delivered during the wait and `waitpid` returning -1
without a status: the parent exits with 130 and has removed the temporary
file it created, with no termination status of the child. -/
theorem interrupted_wait_counterexample :
    finishedArgv defaultConfig
        { quietEnv 5 with waitpid := none, sigsWhileWaiting := [SIGINT] }
        ["-f".toList, "a.awk".toList, "-e".toList, "BEGIN".toList, "in.txt".toList] =
      some [some "/usr/local/bin/gawk".toList, some "-f".toList, some "a.awk".toList,
        some "-f".toList, some "/tmp/runawk.Ab3dE9".toList, some "--".toList,
        some "in.txt".toList, none] ∧
    (main defaultConfig { quietEnv 5 with waitpid := none, sigsWhileWaiting := [SIGINT] }
      ["-f".toList, "a.awk".toList, "-e".toList, "BEGIN".toList, "in.txt".toList]).status
        = 130 ∧
    (main defaultConfig { quietEnv 5 with waitpid := none, sigsWhileWaiting := [SIGINT] }
      ["-f".toList, "a.awk".toList, "-e".toList, "BEGIN".toList,
        "in.txt".toList]).world.created = 1 ∧
    (main defaultConfig { quietEnv 5 with waitpid := none, sigsWhileWaiting := [SIGINT] }
      ["-f".toList, "a.awk".toList, "-e".toList, "BEGIN".toList,
        "in.txt".toList]).world.tempFile = none :=
  ⟨rfl, rfl, rfl, rfl⟩

/-- C19, amended: once the child is forked the parent calls `waitpid` once.
Every signal delivered after the fork is forwarded to the child. When the
call returns without a status (interrupted by a handled signal) it is not
retried: the parent exits with 128 + the signal recorded last, or with 0
when no signal is on record. When the call returns the child's status and no
signal is delivered, the exit status is derived from that status. In every
case the temporary file has been removed at exit. -/
theorem wait_once (cfg : Config) (env : Env) (args : List CStr) (pid : Nat)
    (hreach : (finishedArgv cfg env args).isSome = true) (hf : env.fork = some pid) :
    (main cfg env args).world.tempFile = none ∧
    (main cfg env args).world.killed =
      (env.sigsWhileWaiting ++ env.sigsBeforeDie).map (fun n => ((pid : Int), n)) ∧
    (env.waitpid = none →
      (main cfg env args).status =
        if (env.sigsBeforeFork ++ env.sigsWhileWaiting
            ++ env.sigsBeforeDie).getLast?.getD 0 ≠ 0 then
          128 + (env.sigsBeforeFork ++ env.sigsWhileWaiting
            ++ env.sigsBeforeDie).getLast?.getD 0
        else 0) ∧
    (∀ cs, env.waitpid = some cs → env.sigsBeforeFork = [] → env.sigsWhileWaiting = [] →
      env.sigsBeforeDie = [] →
      (main cfg env args).status =
        if cs.WIFSIGNALED then 128 + cs.WTERMSIG
        else if cs.WIFEXITED then cs.WEXITSTATUS
        else 200) := by
  obtain ⟨st, hb, hm, hk, _, hkd⟩ := reach_fork cfg env args hreach
  refine ⟨?_, ?_, ?_, ?_⟩
  · have key := buildArgv_owned cfg env args
    rw [hb] at key
    rw [hm]
    exact supervise_removes cfg env st key
  · rw [hm, supervise_killed cfg env st pid hf, hkd, List.nil_append]
  · intro hw
    rw [hm, supervise_status cfg env st pid hf, hk, hw]
    have e : env.sigsBeforeDie.getLast?.getD
          (env.sigsWhileWaiting.getLast?.getD (env.sigsBeforeFork.getLast?.getD 0)) =
        (env.sigsBeforeFork ++ env.sigsWhileWaiting
          ++ env.sigsBeforeDie).getLast?.getD 0 := by
      rw [List.getLast?_append, List.getLast?_append]
      cases env.sigsBeforeDie.getLast? <;> cases env.sigsWhileWaiting.getLast? <;> simp
    simp only [e, Option.getD_none, statusZero]
    split_ifs <;> simp_all
  · intro cs hw h0 h1 h2
    rw [hm, supervise_status cfg env st pid hf, hk, hw, h0, h1, h2]
    simp

/-- Witness for C19 (amended): `SIGTERM` interrupts the wait; and a wait that
returns the status of a child that exited with 3. -/
theorem wait_once_witness :
    (main defaultConfig { quietEnv 5 with waitpid := none, sigsWhileWaiting := [SIGTERM] }
      ["-f".toList, "a.awk".toList, "-e".toList, "BEGIN".toList]).world.tempFile = none ∧
    (main defaultConfig { quietEnv 5 with waitpid := none, sigsWhileWaiting := [SIGTERM] }
      ["-f".toList, "a.awk".toList, "-e".toList, "BEGIN".toList]).world.killed =
        [(4242, SIGTERM)] ∧
    (main defaultConfig { quietEnv 5 with waitpid := none, sigsWhileWaiting := [SIGTERM] }
      ["-f".toList, "a.awk".toList, "-e".toList, "BEGIN".toList]).status = 128 + SIGTERM ∧
    (main defaultConfig { quietEnv 5 with waitpid := some ⟨false, 0, true, 3⟩ }
      ["-f".toList, "a.awk".toList, "-e".toList, "BEGIN".toList]).status = 3 :=
  have h := wait_once defaultConfig
    { quietEnv 5 with waitpid := none, sigsWhileWaiting := [SIGTERM] }
    ["-f".toList, "a.awk".toList, "-e".toList, "BEGIN".toList] 4242 rfl rfl
  ⟨h.1, h.2.1, h.2.2.1 rfl,
    (wait_once defaultConfig { quietEnv 5 with waitpid := some ⟨false, 0, true, 3⟩ }
      ["-f".toList, "a.awk".toList, "-e".toList, "BEGIN".toList] 4242 rfl rfl).2.2.2
      ⟨false, 0, true, 3⟩ rfl rfl rfl rfl⟩

theorem script_of_sources (opts : List Spec.Opt) (earlier : List CStr) (s : CStr)
    (h : opts.filterMap Spec.Opt.source? = earlier ++ [s]) : Spec.script opts = some s := by
  unfold Spec.script
  rw [h, List.getLast?_append]
  rfl

theorem translate_without_sources (opts : List Spec.Opt) :
    Spec.translate opts = Spec.translate (opts.filter (fun o => o.source?.isNone)) := by
  induction opts with
  | nil => rfl
  | cons o opts ih =>
    have e : Spec.translate (o :: opts) = o.translation ++ Spec.translate opts := by
      simp [Spec.translate]
    rw [e, ih]
    cases o <;> simp [Spec.translate, Spec.Opt.source?, Spec.Opt.translation, List.filter]

/-- Counterexample to C20 as stated: for `-e a -e b a` the text `a` of the
earlier occurrence is a token of the queue (the positional argument, passed
on verbatim); for `-e -- -e b` the text `--` of the earlier occurrence is a
token of the queue (the terminator that precedes the script). -/
theorem earlier_script_text_counterexample :
    Spec.parse ["-e".toList, "a".toList, "-e".toList, "b".toList, "a".toList] =
      .ok ⟨[.source "a".toList, .source "b".toList], false, ["a".toList]⟩ ∧
    finishedArgv defaultConfig (quietEnv 0)
        ["-e".toList, "a".toList, "-e".toList, "b".toList, "a".toList] =
      some [some "/usr/local/bin/gawk".toList, some "--".toList, some "b".toList,
        some "a".toList, none] ∧
    some "a".toList ∈ [some "/usr/local/bin/gawk".toList, some "--".toList, some "b".toList,
        some "a".toList, none] ∧
    Spec.parse ["-e".toList, "--".toList, "-e".toList, "b".toList] =
      .ok ⟨[.source "--".toList, .source "b".toList], false, []⟩ ∧
    finishedArgv defaultConfig (quietEnv 0)
        ["-e".toList, "--".toList, "-e".toList, "b".toList] =
      some [some "/usr/local/bin/gawk".toList, some "--".toList, some "b".toList, none] ∧
    some "--".toList ∈ [some "/usr/local/bin/gawk".toList, some "--".toList,
        some "b".toList, none] :=
  ⟨rfl, rfl, by decide, rfl, rfl, by decide⟩

/-- C20, amended: for arguments that do not trigger shebang expansion, whose
option parsing is not ended by `--exec`, and that parse to options whose
inline scripts are, in order, `earlier` and then `s`, when `getcwd` and
`xstrdup` succeed: the option tokens of the queue are those of the options
other than the inline scripts (no occurrence adds a token); with no library
file no temporary file is created and the queue is slot 0, the option
tokens, `--`, `s`, the arguments, `/dev/stdin` when asked, `NULL`; with a
library file, when `mkstemp`, `write` and `close` succeed, the temporary
file holds exactly `s` and the queue is slot 0, the option tokens, `-f`, the
temporary path, `--`, the arguments, `/dev/stdin` when asked, `NULL`. In
both cases the text of an earlier occurrence is a token of the queue only if
it is equal to one of those tokens. -/
theorem last_script_wins (cfg : Config) (env : Env) (args : List CStr) (r : Spec.Parsed)
    (earlier : List CStr) (s : CStr)
    (hcwd : env.getcwd = true) (hdup : env.xstrdup = true)
    (hsb : (shebangExpand args).argc = 0) (hparse : Spec.parse args = .ok r)
    (hexec : r.exec = false)
    (hsrc : r.opts.filterMap Spec.Opt.source? = earlier ++ [s]) :
    Spec.translate r.opts = Spec.translate (r.opts.filter (fun o => o.source?.isNone)) ∧
    (Spec.hasFile r.opts = false →
      ∃ st, buildArgv cfg env args (deliver env.sigsBeforeFork {}) = .ok st ∧
        st.world.tempFile = none ∧
        st.new_argv =
          (cfg.AWK :: (cfg.AWK2.toList ++ Spec.translate r.opts) ++ ["--".toList, s]
            ++ r.rest ++ (if Spec.hasStdin r.opts then ["/dev/stdin".toList] else [])).map some
            ++ [none] ∧
        ∀ e ∈ earlier, some e ∈ st.new_argv →
          e = cfg.AWK ∨ e ∈ cfg.AWK2.toList ∨ e ∈ Spec.translate r.opts ∨ e = "--".toList ∨
            e = s ∨ e ∈ r.rest ∨ (Spec.hasStdin r.opts = true ∧ e = "/dev/stdin".toList)) ∧
    (Spec.hasFile r.opts = true → ∀ path, env.mkstemp = some path →
      env.write = some s.length → env.close = true →
      ∃ st, buildArgv cfg env args (deliver env.sigsBeforeFork {}) = .ok st ∧
        st.world.tempFile = some (path, s) ∧
        st.new_argv =
          (cfg.AWK :: (cfg.AWK2.toList ++ Spec.translate r.opts)
            ++ ["-f".toList, path, "--".toList]
            ++ r.rest ++ (if Spec.hasStdin r.opts then ["/dev/stdin".toList] else [])).map some
            ++ [none] ∧
        ∀ e ∈ earlier, some e ∈ st.new_argv →
          e = cfg.AWK ∨ e ∈ cfg.AWK2.toList ∨ e ∈ Spec.translate r.opts ∨ e = "-f".toList ∨
            e = path ∨ e = "--".toList ∨ e ∈ r.rest ∨
            (Spec.hasStdin r.opts = true ∧ e = "/dev/stdin".toList)) := by
  have hscript := script_of_sources r.opts earlier s hsrc
  have hb := buildArgv_eq cfg env args r hcwd hparse
  have hs := afterParse_script cfg env args r s hscript
  have hread : scriptRead env args s = s := by simp [scriptRead, hsb]
  rw [hread] at hs
  refine ⟨translate_without_sources r.opts, ?_, ?_⟩
  · intro hfile
    have hf : (afterParse cfg env args r (deliver env.sigsBeforeFork {})).files = false := by
      rw [afterParse_start]; exact hfile
    rw [finishArgv_inline cfg env _ r.rest _ hs hf hdup] at hb
    refine ⟨_, hb, ?_, ?_, ?_⟩
    · simp only [afterParse_start]
    · simp only [afterParse_start]
      cases Spec.hasStdin r.opts <;> simp
    · intro e _
      simp only [afterParse_start]
      cases Spec.hasStdin r.opts <;> cases cfg.AWK2 <;> simp
  · intro hfile path hmk hwr hcl
    have hf : (afterParse cfg env args r (deliver env.sigsBeforeFork {})).files = true := by
      rw [afterParse_start]; exact hfile
    rw [finishArgv_tempfile cfg env s path r.rest _ hs hf hmk hwr hcl hdup] at hb
    refine ⟨_, hb, ?_, ?_, ?_⟩
    · simp only [afterParse_start]
    · simp only [afterParse_start, hexec]
      cases Spec.hasStdin r.opts <;> simp
    · intro e _
      simp only [afterParse_start, hexec]
      cases Spec.hasStdin r.opts <;> cases cfg.AWK2 <;> simp

/-- Witness for C20 (amended): `-e a --source b -ec in.txt`, and with a
library file `-f lib.awk -e a -e b in.txt`; the earlier texts are no tokens
of the queue. -/
theorem last_script_wins_witness :
    (∃ st, buildArgv defaultConfig (quietEnv 0)
        ["-e".toList, "a".toList, "--source".toList, "b".toList, "-ec".toList,
          "in.txt".toList]
        (deliver (quietEnv 0).sigsBeforeFork {}) = .ok st ∧
      st.world.tempFile = none ∧
      st.new_argv =
        [some "/usr/local/bin/gawk".toList, some "--".toList, some "c".toList,
          some "in.txt".toList, none] ∧
      some "a".toList ∉ st.new_argv ∧ some "b".toList ∉ st.new_argv) ∧
    (∃ st, buildArgv defaultConfig (quietEnv 1)
        ["-f".toList, "lib.awk".toList, "-e".toList, "a".toList, "-e".toList, "b".toList,
          "in.txt".toList]
        (deliver (quietEnv 1).sigsBeforeFork {}) = .ok st ∧
      st.world.tempFile = some ("/tmp/runawk.Ab3dE9".toList, "b".toList) ∧
      st.new_argv =
        [some "/usr/local/bin/gawk".toList, some "-f".toList, some "lib.awk".toList,
          some "-f".toList, some "/tmp/runawk.Ab3dE9".toList, some "--".toList,
          some "in.txt".toList, none] ∧
      some "a".toList ∉ st.new_argv) := by
  obtain ⟨st, h1, h2, h3, h4⟩ := (last_script_wins defaultConfig (quietEnv 0)
    ["-e".toList, "a".toList, "--source".toList, "b".toList, "-ec".toList, "in.txt".toList]
    ⟨[.source "a".toList, .source "b".toList, .source "c".toList], false, ["in.txt".toList]⟩
    ["a".toList, "b".toList] "c".toList rfl rfl rfl rfl rfl rfl).2.1 rfl
  obtain ⟨st2, k1, k2, k3, k4⟩ := (last_script_wins defaultConfig (quietEnv 1)
    ["-f".toList, "lib.awk".toList, "-e".toList, "a".toList, "-e".toList, "b".toList,
      "in.txt".toList]
    ⟨[.file "lib.awk".toList, .source "a".toList, .source "b".toList], false,
      ["in.txt".toList]⟩
    ["a".toList] "b".toList rfl rfl rfl rfl rfl rfl).2.2 rfl
    "/tmp/runawk.Ab3dE9".toList rfl rfl rfl
  exact ⟨⟨st, h1, h2, h3, fun h => absurd (h4 _ (by decide) h) (by decide),
      fun h => absurd (h4 _ (by decide) h) (by decide)⟩,
    ⟨st2, k1, k2, k3, fun h => absurd (k4 _ (by decide) h) (by decide)⟩⟩

theorem valueOption_translation (X : Char) (x : CStr) (hX : X ∈ ['F', 'v', 'f']) :
    (Spec.valueOption X x).translation = [['-', X], x] := by
  simp only [List.mem_cons, List.mem_singleton, List.not_mem_nil, or_false] at hX
  rcases hX with rfl | rfl | rfl <;> rfl

theorem scan_attached (sh b : Bool) (X : Char) (x : CStr) (post : List CStr)
    (hX : X ∈ ['F', 'v', 'f']) (hx : x ≠ []) :
    Spec.scan sh b (('-' :: X :: x) :: post) =
      (Spec.scan sh b post).map (Spec.Parsed.cons (Spec.valueOption X x)) := by
  simp only [List.mem_cons, List.mem_singleton, List.not_mem_nil, or_false] at hX
  rw [Spec.scan.eq_2]
  rcases hX with rfl | rfl | rfl
  · have c : Spec.classify ('-' :: 'F' :: x) = .option (.fieldSep x) := by
      simp [Spec.classify, hx]
    rw [c]
    simp [Spec.valueOption, Spec.Opt.source?]
  · have c : Spec.classify ('-' :: 'v' :: x) = .option (.assign x) := by
      simp [Spec.classify, hx]
    rw [c]
    simp [Spec.valueOption, Spec.Opt.source?]
  · have c : Spec.classify ('-' :: 'f' :: x) = .option (.file x) := by
      simp [Spec.classify, hx]
    rw [c]
    simp [Spec.valueOption, Spec.Opt.source?]

theorem scan_separated (sh b : Bool) (X : Char) (x : CStr) (post : List CStr)
    (hX : X ∈ ['F', 'v', 'f']) :
    Spec.scan sh b (['-', X] :: x :: post) =
      (Spec.scan sh b post).map (Spec.Parsed.cons (Spec.valueOption X x)) := by
  simp only [List.mem_cons, List.mem_singleton, List.not_mem_nil, or_false] at hX
  rw [Spec.scan.eq_2]
  rcases hX with rfl | rfl | rfl
  · have c : Spec.classify ['-', 'F'] = .separated .fieldSep := rfl
    rw [c]
    simp [Spec.valueOption, Spec.Opt.source?]
  · have c : Spec.classify ['-', 'v'] = .separated .assign := rfl
    rw [c]
    simp [Spec.valueOption, Spec.Opt.source?]
  · have c : Spec.classify ['-', 'f'] = .separated .file := rfl
    rw [c]
    simp [Spec.valueOption, Spec.Opt.source?]

theorem parse_no_shebang (args : List CStr) (hsb : (shebangExpand args).argc = 0) :
    Spec.parse args = Spec.scan false false args := by
  unfold Spec.parse
  dsimp only
  rw [shebangExpand_args_of_argc args hsb, hsb]
  simp
  cases h : Spec.scan false false args <;> rfl

/-- The separated form never makes the arguments look like a shebang line
when the attached form does not. -/
theorem separated_no_shebang (pre : List CStr) (X : Char) (x : CStr) (post : List CStr)
    (hX : X ∈ ['F', 'v', 'f'])
    (hsb : (shebangExpand (pre ++ ('-' :: X :: x) :: post)).argc = 0) :
    (shebangExpand (pre ++ ['-', X] :: x :: post)).argc = 0 := by
  have hXs : X ≠ ' ' := by
    simp only [List.mem_cons, List.mem_singleton, List.not_mem_nil, or_false] at hX
    rcases hX with rfl | rfl | rfl <;> decide
  match pre, hsb with
  | [], _ =>
    unfold shebangExpand
    simp only [List.nil_append]
    rw [if_neg]
    rintro ⟨_, _, hmem⟩
    simp at hmem
    exact hXs hmem.symm
  | [a], _ =>
    unfold shebangExpand
    simp
  | a :: b :: rest, hsb =>
    unfold shebangExpand at hsb ⊢
    simp only [List.cons_append] at hsb ⊢
    split_ifs at hsb ⊢ with hc
    · simp at hsb
    · rfl

theorem buildArgv_congr (cfg : Config) (env : Env) (a b : List CStr)
    (hp : Spec.parse a = Spec.parse b)
    (hs : (shebangExpand a).argc = (shebangExpand b).argc) :
    buildArgv cfg env a (deliver env.sigsBeforeFork {}) =
      buildArgv cfg env b (deliver env.sigsBeforeFork {}) := by
  cases hcwd : env.getcwd with
  | false => simp [buildArgv, parseArgs, hcwd]
  | true =>
    unfold buildArgv
    rw [parseArgs_eq cfg env a _ hcwd (by rw [deliver_before_fork _ _ rfl]),
      parseArgs_eq cfg env b _ hcwd (by rw [deliver_before_fork _ _ rfl]), hp]
    cases Spec.parse b with
    | error f => rfl
    | ok r =>
      simp only [afterParse, hs]

/-- Counterexample to C12 as stated: as first argument, followed by `p`,
the attached form `-va b` (value `a b`) is taken for a shebang line, split
and rejected with status 1, while the separated form `-v`, `a b` puts `-v`,
`a b` into the queue and runs the child. -/
theorem attached_form_counterexample :
    main defaultConfig (quietEnv 0) ["-va b".toList, "p".toList] = ⟨1, {}⟩ ∧
    finishedArgv defaultConfig (quietEnv 0) ["-va b".toList, "p".toList] = none ∧
    finishedArgv defaultConfig (quietEnv 0) ["-v".toList, "a b".toList, "p".toList] =
      some [some "p".toList, some "-v".toList, some "a b".toList, some "-f".toList,
        some "p".toList, some "--".toList, none] ∧
    (main defaultConfig (quietEnv 0) ["-v".toList, "a b".toList, "p".toList]).status = 0 :=
  ⟨rfl, rfl, rfl, rfl⟩

/-- C12, amended: for a letter `X` among `F`, `v`, `f`, a non-empty value
`x`, a list `pre` of complete options before and any arguments `post` after,
whenever the arguments with the attached form `-Xx` do not trigger shebang
expansion (it is triggered only when `-Xx` is the first argument, `x`
contains a space and the next argument does not start with `-`), the
invocation with `-Xx` and the one with `-X`, `x` in its place have the same
outcome, the same finished argument vector and the same parse, in which the
option tokens of `pre` are followed by the pair `-X`, `x`. -/
theorem attached_equals_separated (cfg : Config) (env : Env) (pre : List CStr)
    (opts : List Spec.Opt) (X : Char) (x : CStr) (post : List CStr)
    (hX : X ∈ ['F', 'v', 'f']) (hx : x ≠ [])
    (hpre : Spec.optionPrefix pre = some opts)
    (hsb : (shebangExpand (pre ++ ('-' :: X :: x) :: post)).argc = 0) :
    main cfg env (pre ++ ('-' :: X :: x) :: post) =
      main cfg env (pre ++ ['-', X] :: x :: post) ∧
    finishedArgv cfg env (pre ++ ('-' :: X :: x) :: post) =
      finishedArgv cfg env (pre ++ ['-', X] :: x :: post) ∧
    Spec.parse (pre ++ ('-' :: X :: x) :: post) = Spec.parse (pre ++ ['-', X] :: x :: post) ∧
    (∀ r, Spec.parse (pre ++ ('-' :: X :: x) :: post) = .ok r →
      ∃ more, r.opts = opts ++ Spec.valueOption X x :: more ∧
        Spec.translate r.opts =
          Spec.translate opts ++ ['-', X] :: x :: Spec.translate more) := by
  have hsb2 := separated_no_shebang pre X x post hX hsb
  have hscan : Spec.scan false false (pre ++ ('-' :: X :: x) :: post) =
      Spec.scan false false (pre ++ ['-', X] :: x :: post) := by
    rw [scan_append _ pre.length pre opts _ false (Nat.le_refl _) hpre,
      scan_append _ pre.length pre opts _ false (Nat.le_refl _) hpre,
      scan_attached _ _ X x post hX hx, scan_separated _ _ X x post hX]
  have hparse : Spec.parse (pre ++ ('-' :: X :: x) :: post) =
      Spec.parse (pre ++ ['-', X] :: x :: post) := by
    rw [parse_no_shebang _ hsb, parse_no_shebang _ hsb2, hscan]
  have hbuild := buildArgv_congr cfg env _ _ hparse (hsb.trans hsb2.symm)
  refine ⟨?_, ?_, hparse, ?_⟩
  · rw [main_of_ne_nil cfg env _ (by simp), main_of_ne_nil cfg env _ (by simp), hbuild]
  · unfold finishedArgv
    rw [hbuild]
  · intro r hr
    rw [parse_no_shebang _ hsb, scan_append _ pre.length pre opts _ false (Nat.le_refl _) hpre,
      scan_attached _ _ X x post hX hx] at hr
    simp only [Bool.false_or] at hr
    cases hsc : Spec.scan false (Spec.script opts).isSome post with
    | error f => simp [hsc, Except.map] at hr
    | ok r1 =>
      simp [hsc, Except.map, Spec.Parsed.cons] at hr
      subst hr
      refine ⟨r1.opts, rfl, ?_⟩
      simp [Spec.translate, valueOption_translation X x hX]

/-- Witness for C12 (amended): `-F.` and `-F .` before the program file `p`. -/
theorem attached_equals_separated_witness :
    finishedArgv defaultConfig (quietEnv 0) ["-F.".toList, "p".toList] =
      finishedArgv defaultConfig (quietEnv 0) ["-F".toList, ".".toList, "p".toList] ∧
    finishedArgv defaultConfig (quietEnv 0) ["-F".toList, ".".toList, "p".toList] =
      some [some "p".toList, some "-F".toList, some ".".toList, some "-f".toList,
        some "p".toList, some "--".toList, none] :=
  ⟨(attached_equals_separated defaultConfig (quietEnv 0) [] [] 'F' ".".toList ["p".toList]
      (by decide) (by decide) rfl rfl).2.1, rfl⟩

end Runawk
